import Mathlib

/-!
# DHT22 temperature / humidity driver (DHT22.cpp, DHT22.h)

A shallow embedding of the DHT22 class.  The Arduino primitives the class
calls (pinMode, digitalWrite, digitalRead, delay, millis, noInterrupts,
interrupts) are modelled by a world state: the pin and the clock are
oracles giving the successive results of digitalRead and millis, and every
primitive call is appended to an event trace.

Modelling choices.
* byte is a natural number kept below 256 by an explicit % 256.
* unsigned long is a natural number kept below 2 ^ ulongBits.
* int is a two's complement integer of intBits bits (16 on AVR boards, 32
  on ARM boards); the conversion of an out-of-range value wraps, which is
  what gcc does.
* float values are exact rationals: rounding to binary floating point is
  not modelled.
* F_CPU, the clock frequency that the Arduino core defines, is a parameter.
-/

namespace DHT22

/-! ## Target parameters and machine arithmetic -/

/-- Parameters of the compilation target that the source leaves to the
Arduino core: the processor frequency F_CPU and the widths of int and of
unsigned long. -/
structure Target where
  F_CPU : Nat
  intBits : Nat
  ulongBits : Nat

/-- An Arduino Uno: 16 MHz AVR, 16-bit int, 32-bit unsigned long. -/
def uno : Target := { F_CPU := 16000000, intBits := 16, ulongBits := 32 }

/-- A 32-bit ARM board (48 MHz): 32-bit int, 32-bit unsigned long. -/
def arm32 : Target := { F_CPU := 48000000, intBits := 32, ulongBits := 32 }

/-- An ATtiny running at 1 MHz: 16-bit int, 32-bit unsigned long. -/
def attiny : Target := { F_CPU := 1000000, intBits := 16, ulongBits := 32 }

def CYCLES_PER_COUNT : Nat := 50
def TIMEOUT_MICROSECONDS : Nat := 300
/-- The macro TIMEOUT, expanded textually:
TIMEOUT_MICROSECONDS/CYCLES_PER_COUNT*F_CPU/1000000, evaluated left to right. -/
def TIMEOUT (P : Target) : Nat :=
  TIMEOUT_MICROSECONDS / CYCLES_PER_COUNT * P.F_CPU / 1000000
def ONE_SECOND : Nat := 1000
def TWO_SECONDS : Nat := 2000
def TWO_MILLISECONDS : Nat := 2

/-- Pin levels: HIGH is true, LOW is false. -/
def HIGH : Bool := true
def LOW : Bool := false

/-- Reduction of an integer to a two's complement value of the given width. -/
def wrapSigned (bits : Nat) (x : Int) : Int :=
  let m := x % (2 : Int) ^ bits
  if m < (2 : Int) ^ (bits - 1) then m else m - (2 : Int) ^ bits

/-- Bitwise complement of an unsigned value of the given width. -/
def bitNot (bits : Nat) (x : Nat) : Nat :=
  2 ^ bits - 1 - x % 2 ^ bits

/-! ## The hardware abstraction layer -/

inductive PinMode where
  | INPUT_PULLUP
  | OUTPUT
deriving DecidableEq, Repr

/-- One call of an Arduino primitive, with its arguments and, for the two
primitives that return something, its result. -/
inductive Event where
  | pinMode (port : Int) (mode : PinMode)
  | digitalWrite (port : Int) (level : Bool)
  | digitalRead (port : Int) (level : Bool)
  | delay (ms : Nat)
  | millis (value : Nat)
  | noInterrupts
  | interrupts
deriving DecidableEq, Repr

/-- The world outside the class: pin k is the level returned by the k-th
digitalRead, clock k the counter behind the k-th millis call; the trace
lists the primitive calls made so far, oldest first. -/
structure World where
  pin : Nat → Bool
  clock : Nat → Nat
  pinIdx : Nat
  clockIdx : Nat
  trace : List Event

def emit (e : Event) (w : World) : World :=
  { w with trace := w.trace ++ [e] }

def pinMode (port : Int) (mode : PinMode) (w : World) : World :=
  emit (Event.pinMode port mode) w

def digitalWrite (port : Int) (level : Bool) (w : World) : World :=
  emit (Event.digitalWrite port level) w

def delay (ms : Nat) (w : World) : World :=
  emit (Event.delay ms) w

def noInterrupts (w : World) : World :=
  emit Event.noInterrupts w

def interrupts (w : World) : World :=
  emit Event.interrupts w

def digitalRead (port : Int) (w : World) : Bool × World :=
  let v := w.pin w.pinIdx
  (v, emit (Event.digitalRead port v) { w with pinIdx := w.pinIdx + 1 })

/-- The millis primitive: an unsigned long, so the counter is reduced
modulo 2 ^ ulongBits. -/
def millis (P : Target) (w : World) : Nat × World :=
  let v := w.clock w.clockIdx % 2 ^ P.ulongBits
  (v, emit (Event.millis v) { w with clockIdx := w.clockIdx + 1 })

/-! ## The class -/

/-- The data members of class DHT22. -/
structure Reader where
  m_port : Int
  m_data : List Nat
  m_lastRead : Nat
  m_temperature : ℚ
  m_relativeHumidity : ℚ
  m_firstTime : Bool
deriving DecidableEq

/-- The constructor DHT22::DHT22(int port). -/
def new (port : Int) : Reader :=
  { m_port := port
    m_data := [0, 0, 0, 0, 0]
    m_lastRead := 0
    m_firstTime := true
    m_temperature := 0
    m_relativeHumidity := 0 }

/-- The method timeSinceLastRead. -/
def timeSinceLastRead (P : Target) (d : Reader) (w : World) : Nat × World :=
  let (currentMilliseconds, w1) := millis P w
  let timeSince :=
    if currentMilliseconds < d.m_lastRead then
      (bitNot P.ulongBits d.m_lastRead + 1 + currentMilliseconds) % 2 ^ P.ulongBits
    else
      (currentMilliseconds - d.m_lastRead) % 2 ^ P.ulongBits
  (timeSince, w1)

/-- The while loop of waitForState.  Each iteration reads the pin once; the
fuel bounds the number of iterations and is never used up when it starts
at TIMEOUT + 1 (see waitLoop_fuel).  The counter never exceeds TIMEOUT, so
it stays within an int as long as TIMEOUT does. -/
def waitLoop (P : Target) (port : Int) (state : Bool) : Nat → Nat → World → Nat × World
  | 0, count, w => (count, w)
  | fuel + 1, count, w =>
    let (v, w1) := digitalRead port w
    if v != state then
      let count1 := count + 1
      if count1 ≥ TIMEOUT P then (0, w1)
      else waitLoop P port state fuel count1 w1
    else (count, w1)

/-- The method waitForState. -/
def waitForState (P : Target) (d : Reader) (state : Bool) (w : World) : Nat × World :=
  waitLoop P d.m_port state (TIMEOUT P + 1) 0 w

/-- Reading and writing m_data[i]. -/
def getByte (data : List Nat) (i : Nat) : Nat := data.getD i 0
def setByte (data : List Nat) (i : Nat) (v : Nat) : List Nat := data.set i (v % 256)

/-- The body of the for loop of fetchData, for one value of bitN. -/
def sampleBit (P : Target) (d : Reader) (acc : List Nat × World) (bitN : Nat) :
    List Nat × World :=
  let (data, w) := acc
  let (lowCounter, w1) := waitForState P d HIGH w
  if lowCounter > 0 then
    let (highCounter, w2) := waitForState P d LOW w1
    if highCounter > 0 then
      let byteN := bitN / 8
      let data1 := setByte data byteN (getByte data byteN <<< 1)
      if highCounter > lowCounter then
        (setByte data1 byteN (getByte data1 byteN ||| 1), w2)
      else (data1, w2)
    else (data, w2)
  else (data, w1)

/-- The for loop of fetchData: bitN runs from 0 to 39. -/
def sampleBits (P : Target) (d : Reader) (data : List Nat) (w : World) : List Nat × World :=
  (List.range 40).foldl (sampleBit P d) (data, w)

/-- The three waits for the start of transmission; the result is the value
of highCounter after them. -/
def waitAck (P : Target) (d : Reader) (w : World) : Nat × World :=
  let (highCounter, w1) := waitForState P d LOW w
  if highCounter > 0 then
    let (lowCounter, w2) := waitForState P d HIGH w1
    if lowCounter > 0 then
      waitForState P d LOW w2
    else (highCounter, w2)
  else (highCounter, w1)

/-- The value of int((hi << 8) + lo) for two bytes hi and lo. -/
def combine (P : Target) (hi lo : Nat) : Int :=
  wrapSigned P.intBits (wrapSigned P.intBits ((hi : Int) * 2 ^ 8) + (lo : Int))

/-- The last statement of fetchData: the checksum test and the two
assignments of each branch.  The result is (relative humidity, temperature). -/
def decode (P : Target) (data : List Nat) : ℚ × ℚ :=
  let checksum := (getByte data 0 + getByte data 1 + getByte data 2 + getByte data 3) % 256
  if getByte data 4 = checksum then
    ((combine P (getByte data 0) (getByte data 1) : ℚ) / 10,
     (combine P (getByte data 2) (getByte data 3) : ℚ) / 10)
  else (0, 0)

/-- The settle block of fetchData, run when m_firstTime is set. -/
def settle (d : Reader) (w : World) : Reader × World :=
  if d.m_firstTime then
    ({ d with m_firstTime := false },
      delay ONE_SECOND (pinMode d.m_port PinMode.INPUT_PULLUP w))
  else (d, w)

/-- The request signal of fetchData. -/
def request (d : Reader) (w : World) : World :=
  pinMode d.m_port PinMode.INPUT_PULLUP
    (delay TWO_MILLISECONDS
      (digitalWrite d.m_port LOW (pinMode d.m_port PinMode.OUTPUT w)))

/-- The reception of fetchData, between noInterrupts and interrupts: the
start of transmission, then the 40 bits when highCounter is positive.  The
result is the content of m_data afterwards. -/
def receive (P : Target) (d : Reader) (w : World) : List Nat × World :=
  let (highCounter, w1) := waitAck P d w
  if highCounter > 0 then sampleBits P d d.m_data w1 else (d.m_data, w1)

/-- The body of the outer if of fetchData: one bus transaction. -/
def transaction (P : Target) (d : Reader) (w : World) : Reader × World :=
  let (d1, w1) := settle d w
  let w2 := noInterrupts (request d1 w1)
  let (data, w4) := receive P d1 w2
  let w5 := interrupts w4
  let (now, w6) := millis P w5
  let (rh, t) := decode P data
  ({ d1 with m_data := data, m_lastRead := now, m_relativeHumidity := rh, m_temperature := t },
    w6)

/-- The condition of the outer if of fetchData; the clock is read only when
m_firstTime is false. -/
def due (P : Target) (d : Reader) (w : World) : Bool × World :=
  if d.m_firstTime then (true, w)
  else
    let (t, w1) := timeSinceLastRead P d w
    (decide (t > TWO_SECONDS), w1)

/-- The method fetchData. -/
def fetchData (P : Target) (d : Reader) (w : World) : Reader × World :=
  let (go, w1) := due P d w
  if go then transaction P d w1 else (d, w1)

/-- The method temperature. -/
def temperature (P : Target) (d : Reader) (w : World) : ℚ × Reader × World :=
  let (d1, w1) := fetchData P d w
  (d1.m_temperature, d1, w1)

/-- The method relativeHumidity. -/
def relativeHumidity (P : Target) (d : Reader) (w : World) : ℚ × Reader × World :=
  let (d1, w1) := fetchData P d w
  (d1.m_relativeHumidity, d1, w1)

/-! ## Observing a run -/

/-- The two public accessors. -/
inductive Accessor where
  | temperature
  | relativeHumidity
deriving DecidableEq, Repr

/-- A call of one of the two accessors. -/
def call (P : Target) (a : Accessor) (d : Reader) (w : World) : ℚ × Reader × World :=
  match a with
  | Accessor.temperature => temperature P d w
  | Accessor.relativeHumidity => relativeHumidity P d w

/-- A pin read. -/
def isRead : Event → Bool
  | Event.digitalRead _ _ => true
  | _ => false

/-- The start signal of a bus transaction: the pin is driven low. -/
def isStart : Event → Bool
  | Event.digitalWrite _ false => true
  | _ => false

/-- The number of bus transactions started in a trace. -/
def startSignals (tr : List Event) : Nat := tr.countP isStart

/-- A reader state that the class can reach: the constructor followed by
any number of accessor calls, in any world. -/
inductive Reachable (P : Target) : Reader → Prop where
  | init (port : Int) : Reachable P (new port)
  | step (d : Reader) (w : World) : Reachable P d → Reachable P (fetchData P d w).1

/-- The value an accessor returns for a reader state. -/
def cached (a : Accessor) (d : Reader) : ℚ :=
  match a with
  | Accessor.temperature => d.m_temperature
  | Accessor.relativeHumidity => d.m_relativeHumidity

/-- World w2 is world w after some pin reads and nothing else. -/
def ReadsOnly (w w2 : World) : Prop :=
  ∃ evs : List Event, w2.trace = w.trace ++ evs ∧ (∀ e ∈ evs, isRead e = true) ∧
    w2.clock = w.clock ∧ w2.clockIdx = w.clockIdx ∧ w2.pin = w.pin ∧ w.pinIdx ≤ w2.pinIdx

/-- The events of the settle block. -/
def settleEvents (d : Reader) : List Event :=
  if d.m_firstTime then
    [Event.pinMode d.m_port PinMode.INPUT_PULLUP, Event.delay ONE_SECOND]
  else []

/-- The events of the request signal, up to the suspension of interrupts. -/
def requestEvents (d : Reader) : List Event :=
  [Event.pinMode d.m_port PinMode.OUTPUT, Event.digitalWrite d.m_port LOW,
    Event.delay TWO_MILLISECONDS, Event.pinMode d.m_port PinMode.INPUT_PULLUP,
    Event.noInterrupts]

/-- The world in which fetchData, called on reader d in world w, starts the
reception: after the test of the outer if, the settle block, the request
signal and noInterrupts. -/
def receptionStart (P : Target) (d : Reader) (w : World) : World :=
  noInterrupts (request (settle d (due P d w).2).1 (settle d (due P d w).2).2)

/-- The cached pair of a reader is the decode of its frame. -/
def Coherent (P : Target) (d : Reader) : Prop :=
  (d.m_relativeHumidity, d.m_temperature) = decode P d.m_data

/-- The events of the test of the outer if: the clock read, except on the
first call. -/
def dueEvents (P : Target) (d : Reader) (w : World) : List Event :=
  if d.m_firstTime then [] else [Event.millis (millis P w).1]

/-! ## Observing the sampling loop -/

/-- What one iteration of the sampling loop started in world w receives:
none when one of its two waits returns 0, otherwise the bit, which is 1
when the second count (highCounter) exceeds the first (lowCounter).  The
second component is the world after the iteration. -/
def bitOutcome (P : Target) (d : Reader) (w : World) : Option Bool × World :=
  if (waitForState P d HIGH w).1 > 0 then
    if (waitForState P d LOW (waitForState P d HIGH w).2).1 > 0 then
      (some (decide ((waitForState P d LOW (waitForState P d HIGH w).2).1
          > (waitForState P d HIGH w).1)),
        (waitForState P d LOW (waitForState P d HIGH w).2).2)
    else (none, (waitForState P d LOW (waitForState P d HIGH w).2).2)
  else (none, (waitForState P d HIGH w).2)

/-- What n successive iterations started in world w receive. -/
def bitOutcomes (P : Target) (d : Reader) : Nat → World → List (Option Bool)
  | 0, _ => []
  | n + 1, w => (bitOutcome P d w).1 :: bitOutcomes P d n (bitOutcome P d w).2

/-- The frame after an iteration with the given outcome for bit bitN. -/
def applyOutcome (data : List Nat) (bitN : Nat) : Option Bool → List Nat
  | none => data
  | some b => data.set (bitN / 8) (2 * getByte data (bitN / 8) % 256 + b.toNat)

/-- The frame after successive iterations with the given outcomes, the
first of them for bit bitN. -/
def applyOutcomes (data : List Nat) : Nat → List (Option Bool) → List Nat
  | _, [] => data
  | bitN, o :: os => applyOutcomes (applyOutcome data bitN o) (bitN + 1) os

/-- The outcomes that fall into byte k, when the first outcome is for bit bitN. -/
def outcomesOfByte (k : Nat) : Nat → List (Option Bool) → List (Option Bool)
  | _, [] => []
  | bitN, o :: os =>
    if bitN / 8 = k then o :: outcomesOfByte k (bitN + 1) os
    else outcomesOfByte k (bitN + 1) os

/-- A byte after one outcome. -/
def shiftByte (x : Nat) : Option Bool → Nat
  | none => x
  | some b => 2 * x % 256 + b.toNat

/-- The value of a list of bits, most significant bit first. -/
def msbValue (bits : List Bool) : Nat :=
  bits.foldl (fun acc b => 2 * acc + b.toNat) 0

/-- Byte k of a frame received without a skipped bit: the sum of
bit[8k+i] * 2^(7-i) for i from 0 to 7. -/
def msbByte (bits : List Bool) (k : Nat) : Nat :=
  ((List.range 8).map (fun i => (bits.getD (8 * k + i) false).toNat * 2 ^ (7 - i))).sum

/-- The wait for the given state started in world w times out: the pin
differs from the state at TIMEOUT successive reads. -/
def timesOut (P : Target) (state : Bool) (w : World) : Bool :=
  (List.range (TIMEOUT P)).all (fun i => w.pin (w.pinIdx + i) != state)

/-- The iteration of the sampling loop started in world w has a wait that
times out: its first wait, or its second wait, which runs when the first
returned a positive count. -/
def bitTimesOut (P : Target) (d : Reader) (w : World) : Bool :=
  timesOut P HIGH w ||
    (decide (0 < (waitForState P d HIGH w).1) && timesOut P LOW (waitForState P d HIGH w).2)

/-- The world in which iteration j of the sampling loop starts, when the
loop starts in world w. -/
def bitWorld (P : Target) (d : Reader) : Nat → World → World
  | 0, w => w
  | j + 1, w => bitWorld P d j (bitOutcome P d w).2

/-! ## Concrete pin signals -/

/-- Pin levels read while the sensor sends one bit: a low phase and a high
phase, the high phase the longer one for a 1. -/
def bitLevels (b : Bool) : List Bool :=
  if b then [LOW, HIGH, HIGH, HIGH, LOW] else [LOW, LOW, HIGH, HIGH, LOW]

/-- Pin levels of one byte, most significant bit first. -/
def byteLevels (v : Nat) : List Bool :=
  (List.range 8).flatMap (fun i => bitLevels (v.testBit (7 - i)))

/-- Pin levels of the start of transmission: the line is still high, falls,
rises and falls again. -/
def ackLevels : List Bool := [HIGH, LOW, LOW, HIGH, HIGH, LOW]

/-- Pin levels of a whole answer of the sensor. -/
def frameLevels (bytes : List Nat) : List Bool :=
  ackLevels ++ bytes.flatMap byteLevels

/-- A world whose pin reads the given levels (then stays high) and whose
clock returns the given values (then 0). -/
def worldOf (levels : List Bool) (ticks : List Nat) : World :=
  { pin := fun i => levels.getD i HIGH
    clock := fun i => ticks.getD i 0
    pinIdx := 0
    clockIdx := 0
    trace := [] }

/-- A reader that decoded 40.0 % and 26.0 degrees at time 0. -/
def warmReader : Reader :=
  { m_port := 2
    m_data := [0x01, 0x90, 0x01, 0x04, 0x96]
    m_lastRead := 0
    m_firstTime := false
    m_temperature := 26
    m_relativeHumidity := 40 }

/-- The same reader with its last read 6 ms before the clock wraps
(MAX_UINT - 5 for a 32-bit unsigned long). -/
def lateReader : Reader := { warmReader with m_lastRead := 4294967290 }

/-- A world in which the sensor answers 40.0 % and 26.0 degrees; the clock
reads 5000 and then 6000. -/
def goodWorld : World := worldOf (frameLevels [0x01, 0x90, 0x01, 0x04, 0x96]) [5000, 6000]

/-- Pin levels of an answer whose rising edge is lost: the line falls, then
stays low for 96 reads (the value of TIMEOUT at 16 MHz), then carries the
40 bits of the frame [0x01,0x90,0x01,0x04,0x96]. -/
def lostEdgeLevels : List Bool :=
  [HIGH, LOW] ++ List.replicate 96 LOW ++ [0x01, 0x90, 0x01, 0x04, 0x96].flatMap byteLevels

def lostEdgeWorld : World := worldOf lostEdgeLevels [5000]

/-- Pin levels of an answer whose first data bit is lost: after the start of
transmission the line stays low for 96 reads, then carries the remaining 39
bits of the frame [0x01,0x90,0x01,0x04,0x96]. -/
def lostBitLevels : List Bool :=
  ackLevels ++ List.replicate 96 LOW
    ++ ([0x01, 0x90, 0x01, 0x04, 0x96].flatMap byteLevels).drop 5

def lostBitWorld : World := worldOf lostBitLevels [3000, 3001]

/-- A world whose line goes dead after the start of transmission: the pin
reads the levels of ackLevels and stays low ever after; the clock reads 3000. -/
def deadLineWorld : World :=
  { pin := fun i => i == 0 || i == 3 || i == 4
    clock := fun _ => 3000
    pinIdx := 0
    clockIdx := 0
    trace := [] }

/-- The bits of a frame, most significant bit of the first byte first. -/
def frameBits (bytes : List Nat) : List Bool :=
  bytes.flatMap (fun v => (List.range 8).map (fun i => v.testBit (7 - i)))

/-- A world whose pin sends one bit with a low phase and a high phase of
the same length (one read each). -/
def tieWorld : World := worldOf [LOW, HIGH, HIGH, LOW] []

/-- A world whose pin sends a 1: low phase of one read, high phase of two. -/
def oneBitWorld : World := worldOf (bitLevels true) []

/-- A world whose pin sends a 0: low phase of two reads, high phase of one. -/
def zeroBitWorld : World := worldOf (bitLevels false) []

/-- A reader whose frame is all ones. -/
def staleReader : Reader := { warmReader with m_data := [0xFF, 0xFF, 0xFF, 0xFF, 0xFF] }

/-- A world in which the sensor answers 40.0 % and 26.0 degrees at time 3000. -/
def laterWorld : World := worldOf (frameLevels [0x01, 0x90, 0x01, 0x04, 0x96]) [3000, 3001]

/-- Pin levels of an answer whose first data bit has a high phase that
does not end in time: after the start of transmission the line falls, rises
and stays high for 6 more reads (the value of TIMEOUT at 1 MHz), then
carries the remaining 39 bits of the frame [0x01,0x90,0x01,0x04,0x96]. -/
def longHighLevels : List Bool :=
  ackLevels ++ [LOW, HIGH] ++ List.replicate 6 HIGH
    ++ ([0x01, 0x90, 0x01, 0x04, 0x96].flatMap byteLevels).drop 5

def longHighWorld : World := worldOf longHighLevels [3000, 3001]

/-- A world whose line goes idle (stays high) after the start of
transmission and one data bit. -/
def idleWorld : World := worldOf (ackLevels ++ bitLevels true) [3000, 3001]

/-! ## Basic facts -/

/-- When the condition of the outer if holds, fetchData is one transaction. -/
theorem fetchData_of_due (P : Target) (d : Reader) (w : World) (h : (due P d w).1 = true) :
    fetchData P d w = transaction P d (due P d w).2 := by
  unfold fetchData
  rcases hd : due P d w with ⟨go, w1⟩
  rw [hd] at h
  simp at h
  simp [h]

/-- When the condition of the outer if fails, fetchData leaves the reader alone. -/
theorem fetchData_of_not_due (P : Target) (d : Reader) (w : World)
    (h : (due P d w).1 = false) :
    fetchData P d w = (d, (due P d w).2) := by
  unfold fetchData
  rcases hd : due P d w with ⟨go, w1⟩
  rw [hd] at h
  simp at h
  simp [h]

/-- After a transaction the cached pair is the decode of the frame. -/
theorem transaction_cached (P : Target) (d : Reader) (w : World) :
    ((transaction P d w).1.m_relativeHumidity, (transaction P d w).1.m_temperature)
      = decode P (transaction P d w).1.m_data := by
  simp [transaction]

/-- On the first call the clock is not read and the condition holds. -/
theorem due_first (P : Target) (d : Reader) (w : World) (h : d.m_firstTime = true) :
    due P d w = (true, w) := by
  simp [due, h]

/-- On later calls the condition is the test of the elapsed time. -/
theorem due_ready (P : Target) (d : Reader) (w : World) (h : d.m_firstTime = false) :
    due P d w = (decide ((timeSinceLastRead P d w).1 > TWO_SECONDS), (millis P w).2) := by
  simp [due, h, timeSinceLastRead]

/-- After fetchData the first-time flag is clear. -/
theorem fetchData_firstTime (P : Target) (d : Reader) (w : World) :
    (fetchData P d w).1.m_firstTime = false := by
  cases hd : (due P d w).1
  · rw [fetchData_of_not_due P d w hd]
    cases hf : d.m_firstTime
    · rfl
    · rw [due_first P d w hf] at hd
      simp at hd
  · rw [fetchData_of_due P d w hd]
    cases hf : d.m_firstTime <;> simp [transaction, settle, hf]

/-- A call within the polling interval only reads the clock. -/
theorem fetchData_idle (P : Target) (d : Reader) (w : World) (hf : d.m_firstTime = false)
    (hclose : (timeSinceLastRead P d w).1 ≤ TWO_SECONDS) :
    fetchData P d w = (d, (millis P w).2) := by
  have hd : (due P d w).1 = false := by
    rw [due_ready P d w hf]
    simp
    exact hclose
  rw [fetchData_of_not_due P d w hd, due_ready P d w hf]

theorem call_reader (P : Target) (a : Accessor) (d : Reader) (w : World) :
    (call P a d w).2.1 = (fetchData P d w).1 := by
  cases a <;> rfl

theorem call_world (P : Target) (a : Accessor) (d : Reader) (w : World) :
    (call P a d w).2.2 = (fetchData P d w).2 := by
  cases a <;> rfl

theorem call_value (P : Target) (a : Accessor) (d : Reader) (w : World) :
    (call P a d w).1 = cached a (fetchData P d w).1 := by
  cases a <;> rfl

/-! ## Machine arithmetic -/

/-- A value inside the range of a signed integer is left alone. -/
theorem wrapSigned_of_range (n : Nat) (x : Int) (hn : 1 ≤ n)
    (hlo : -((2 : Int) ^ (n - 1)) ≤ x) (hhi : x < (2 : Int) ^ (n - 1)) :
    wrapSigned n x = x := by
  have hpow : (2 : Int) ^ n = 2 * 2 ^ (n - 1) := by
    obtain ⟨k, rfl⟩ : ∃ k, n = k + 1 := ⟨n - 1, by omega⟩
    simp [pow_succ, mul_comm]
  have hpos : (0 : Int) < 2 ^ (n - 1) := by positivity
  unfold wrapSigned
  simp only
  by_cases hx : 0 ≤ x
  · have hm : x % (2 : Int) ^ n = x := Int.emod_eq_of_lt hx (by rw [hpow]; linarith)
    rw [hm, if_pos hhi]
  · have hm : x % (2 : Int) ^ n = x + 2 ^ n := by
      rw [← Int.add_emod_self]
      exact Int.emod_eq_of_lt (by rw [hpow]; linarith) (by linarith)
    rw [hm, if_neg (by rw [hpow]; linarith)]
    ring

/-- The two bytes combine to their unsigned value when int is wider than
16 bits, or when the high byte has its top bit clear. -/
theorem combine_unsigned (P : Target) (hi lo : Nat) (hint : 16 ≤ P.intBits)
    (hhi : hi < 256) (hlo : lo < 256) (hfit : 17 ≤ P.intBits ∨ hi < 128) :
    combine P hi lo = 256 * (hi : Int) + lo := by
  have h15 : (2 : Int) ^ 15 ≤ 2 ^ (P.intBits - 1) :=
    pow_le_pow_right₀ (by norm_num) (by omega)
  have hbound : 256 * (hi : Int) + lo < 2 ^ (P.intBits - 1) := by
    rcases hfit with h17 | h128
    · have h16 : (2 : Int) ^ 16 ≤ 2 ^ (P.intBits - 1) :=
        pow_le_pow_right₀ (by norm_num) (by omega)
      norm_num at h16
      omega
    · norm_num at h15
      omega
  have hpos : (0 : Int) < 2 ^ (P.intBits - 1) := by positivity
  unfold combine
  rw [wrapSigned_of_range P.intBits ((hi : Int) * 2 ^ 8) (by omega) (by norm_num; omega)
    (by norm_num; omega)]
  rw [wrapSigned_of_range _ _ (by omega) (by norm_num; omega) (by norm_num; omega)]
  norm_num
  ring

/-- With a 16-bit int a high byte with its top bit set makes the
combination negative. -/
theorem combine_signed16 (P : Target) (hi lo : Nat) (hint : P.intBits = 16)
    (hhi : hi < 256) (hlo : lo < 256) (hneg : 128 ≤ hi) :
    combine P hi lo = 256 * (hi : Int) + lo - 65536 := by
  unfold combine wrapSigned
  rw [hint]
  norm_num
  split_ifs <;> omega

/-- The elapsed time is the difference of the two counters modulo
2 ^ ulongBits, in both branches. -/
theorem timeSince_eq (P : Target) (d : Reader) (w : World) :
    ((timeSinceLastRead P d w).1 : ℤ)
      = (((millis P w).1 : ℤ) - d.m_lastRead) % 2 ^ P.ulongBits := by
  unfold timeSinceLastRead
  simp only [millis, bitNot]
  generalize P.ulongBits = W
  generalize w.clock w.clockIdx = c
  generalize d.m_lastRead = last
  have hM : 0 < 2 ^ W := Nat.pow_pos (by norm_num)
  generalize hMd : 2 ^ W = M at *
  have hMz : ((2 : ℤ) ^ W) = (M : ℤ) := by rw [← hMd]; push_cast; rfl
  rw [hMz]
  have hc : c % M < M := Nat.mod_lt _ hM
  generalize c % M = cur at *
  split
  · rename_i hlt
    have hr : last % M < M := Nat.mod_lt _ hM
    have e1 : M - 1 - last % M + 1 + cur = M - last % M + cur := by omega
    rw [e1, Int.natCast_mod, Nat.cast_add, Nat.cast_sub (le_of_lt hr), Int.natCast_mod]
    rw [Int.emod_eq_emod_iff_emod_sub_eq_zero]
    have h := Int.ediv_add_emod (last : ℤ) M
    have e2 : ((M : ℤ) - last % M + cur - (cur - last)) = M * (1 + last / M) := by
      linear_combination (-1 : ℤ) * h
    rw [e2, Int.mul_emod_right]
  · rename_i hge
    have hle : last ≤ cur := by omega
    rw [Int.natCast_mod, Nat.cast_sub hle]

/-! ## The wait loop -/

/-- The result of the wait loop does not depend on the fuel, once there is
enough of it: the loop ends by itself within TIMEOUT + 1 - count reads. -/
theorem waitLoop_fuel (P : Target) (port : Int) (state : Bool) (fuel : Nat) :
    ∀ (fuel2 count : Nat) (w : World), 1 ≤ fuel → 1 ≤ fuel2 →
      TIMEOUT P + 1 ≤ fuel + count → TIMEOUT P + 1 ≤ fuel2 + count →
      waitLoop P port state fuel count w = waitLoop P port state fuel2 count w := by
  induction fuel with
  | zero => intro fuel2 count w h; omega
  | succ n ih =>
    intro fuel2 count w _ h2 h3 h4
    obtain ⟨m, rfl⟩ : ∃ m, fuel2 = m + 1 := ⟨fuel2 - 1, by omega⟩
    simp only [waitLoop]
    split_ifs with hv ht
    · rfl
    · exact ih m (count + 1) _ (by omega) (by omega) (by omega) (by omega)
    · rfl

/-! ## Traces -/

theorem ReadsOnly.refl (w : World) : ReadsOnly w w :=
  ⟨[], by simp, by simp, rfl, rfl, rfl, le_refl _⟩

theorem ReadsOnly.trans {a b c : World} (h1 : ReadsOnly a b) (h2 : ReadsOnly b c) :
    ReadsOnly a c := by
  obtain ⟨e1, t1, r1, c1, i1, p1, n1⟩ := h1
  obtain ⟨e2, t2, r2, c2, i2, p2, n2⟩ := h2
  refine ⟨e1 ++ e2, by rw [t2, t1, List.append_assoc], ?_, c2.trans c1, i2.trans i1,
    p2.trans p1, le_trans n1 n2⟩
  intro e he
  rcases List.mem_append.mp he with h | h
  · exact r1 e h
  · exact r2 e h

theorem digitalRead_readsOnly (port : Int) (w : World) :
    ReadsOnly w (digitalRead port w).2 :=
  ⟨[Event.digitalRead port (w.pin w.pinIdx)], rfl, by simp [isRead], rfl, rfl, rfl,
    Nat.le_succ _⟩

theorem waitLoop_readsOnly (P : Target) (port : Int) (state : Bool) (fuel : Nat) :
    ∀ (count : Nat) (w : World), ReadsOnly w (waitLoop P port state fuel count w).2 := by
  induction fuel with
  | zero => intro count w; exact ReadsOnly.refl w
  | succ n ih =>
    intro count w
    have hr := digitalRead_readsOnly port w
    simp only [waitLoop]
    split_ifs
    · exact hr
    · exact hr.trans (ih _ _)
    · exact hr

theorem waitForState_readsOnly (P : Target) (d : Reader) (state : Bool) (w : World) :
    ReadsOnly w (waitForState P d state w).2 :=
  waitLoop_readsOnly P d.m_port state _ 0 w

theorem sampleBit_readsOnly (P : Target) (d : Reader) (data : List Nat) (w : World)
    (bitN : Nat) : ReadsOnly w (sampleBit P d (data, w) bitN).2 := by
  have h1 := waitForState_readsOnly P d HIGH w
  have h2 := waitForState_readsOnly P d LOW (waitForState P d HIGH w).2
  simp only [sampleBit]
  split_ifs
  · exact h1.trans h2
  · exact h1.trans h2
  · exact h1.trans h2
  · exact h1

theorem foldl_sampleBit_readsOnly (P : Target) (d : Reader) (l : List Nat) :
    ∀ (data : List Nat) (w : World),
      ReadsOnly w (l.foldl (sampleBit P d) (data, w)).2 := by
  induction l with
  | nil => intro data w; exact ReadsOnly.refl w
  | cons b l ih =>
    intro data w
    rw [List.foldl_cons]
    exact (sampleBit_readsOnly P d data w b).trans (ih _ _)

theorem sampleBits_readsOnly (P : Target) (d : Reader) (data : List Nat) (w : World) :
    ReadsOnly w (sampleBits P d data w).2 :=
  foldl_sampleBit_readsOnly P d _ data w

theorem waitAck_readsOnly (P : Target) (d : Reader) (w : World) :
    ReadsOnly w (waitAck P d w).2 := by
  have h1 := waitForState_readsOnly P d LOW w
  have h2 := waitForState_readsOnly P d HIGH (waitForState P d LOW w).2
  have h3 := waitForState_readsOnly P d LOW
    (waitForState P d HIGH (waitForState P d LOW w).2).2
  simp only [waitAck]
  split_ifs
  · exact (h1.trans h2).trans h3
  · exact h1.trans h2
  · exact h1

theorem receive_readsOnly (P : Target) (d : Reader) (w : World) :
    ReadsOnly w (receive P d w).2 := by
  have h1 := waitAck_readsOnly P d w
  have h2 := sampleBits_readsOnly P d d.m_data (waitAck P d w).2
  simp only [receive]
  split_ifs
  · exact h1.trans h2
  · exact h1

/-- The events of a transaction, in order: the settle block on the first
call, the request signal and noInterrupts, pin reads, interrupts, and the
clock read whose result becomes m_lastRead. -/
theorem transaction_trace (P : Target) (d : Reader) (w : World) :
    ∃ reads : List Event, (∀ e ∈ reads, isRead e = true) ∧
      (transaction P d w).2.trace
        = w.trace ++ settleEvents d ++ requestEvents d ++ reads
            ++ [Event.interrupts, Event.millis (transaction P d w).1.m_lastRead] ∧
      (transaction P d w).1.m_lastRead = w.clock w.clockIdx % 2 ^ P.ulongBits ∧
      (transaction P d w).2.clockIdx = w.clockIdx + 1 := by
  have hrec := receive_readsOnly P (settle d w).1
    (noInterrupts (request (settle d w).1 (settle d w).2))
  obtain ⟨reads, ht, hr, hc, hi, -, -⟩ := hrec
  refine ⟨reads, hr, ?_⟩
  simp only [transaction, millis, interrupts, emit, ht, hc, hi]
  cases hf : d.m_firstTime <;>
    simp [settle, request, noInterrupts, pinMode, digitalWrite, delay, emit, hf,
      settleEvents, requestEvents]

theorem startSignals_reads (reads : List Event) (h : ∀ e ∈ reads, isRead e = true) :
    startSignals reads = 0 := by
  unfold startSignals
  rw [List.countP_eq_zero]
  intro e he
  have := h e he
  cases e <;> simp_all [isRead, isStart]

theorem startSignals_due (P : Target) (d : Reader) (w : World) :
    startSignals (due P d w).2.trace = startSignals w.trace := by
  cases hf : d.m_firstTime
  · rw [due_ready P d w hf]
    simp [millis, emit, startSignals, isStart]
  · rw [due_first P d w hf]

theorem startSignals_transaction (P : Target) (d : Reader) (w : World) :
    startSignals (transaction P d w).2.trace = startSignals w.trace + 1 := by
  obtain ⟨reads, hr, ht, -, -⟩ := transaction_trace P d w
  have h0 := startSignals_reads reads hr
  unfold startSignals at h0 ⊢
  rw [ht]
  simp only [List.countP_append, h0]
  cases hf : d.m_firstTime <;>
    simp [settleEvents, requestEvents, hf, isStart, LOW, List.countP_cons]

theorem startSignals_fetchData_le (P : Target) (d : Reader) (w : World) :
    startSignals (fetchData P d w).2.trace ≤ startSignals w.trace + 1 := by
  cases hd : (due P d w).1
  · rw [fetchData_of_not_due P d w hd]
    simp only
    rw [startSignals_due]
    omega
  · rw [fetchData_of_due P d w hd, startSignals_transaction, startSignals_due]

/-! ## Reachable states -/

/-- The frame of a fresh reader decodes to 0 and 0. -/
theorem decode_new (P : Target) (port : Int) :
    decode P (new port).m_data = (0, 0) := by
  simp [decode, new, getByte, combine, wrapSigned]

/-- In every reachable state the cached pair is the decode of the frame. -/
theorem reachable_cached (P : Target) (d : Reader) (h : Reachable P d) :
    (d.m_relativeHumidity, d.m_temperature) = decode P d.m_data := by
  induction h with
  | init port => rw [decode_new]; rfl
  | step d w _ ih =>
    cases hd : (due P d w).1
    · rw [fetchData_of_not_due P d w hd]; exact ih
    · rw [fetchData_of_due P d w hd]; exact transaction_cached P d _

/-- The reader warmReader is reached by one call on a fresh reader. -/
theorem warmReader_reachable : Reachable attiny warmReader := by
  have h : warmReader = (fetchData attiny (new 2)
      (worldOf (frameLevels [0x01, 0x90, 0x01, 0x04, 0x96]) [0])).1 := by decide!
  rw [h]
  exact Reachable.step _ _ (Reachable.init 2)

/-! ## The wait loop, read by read -/

/-- A pin read returns the next level of the pin oracle. -/
theorem digitalRead_fst (port : Int) (w : World) : (digitalRead port w).1 = w.pin w.pinIdx := rfl

/-- A pin read advances the pin oracle by one. -/
theorem digitalRead_pinIdx (port : Int) (w : World) :
    (digitalRead port w).2.pinIdx = w.pinIdx + 1 := rfl

/-- A pin read leaves the pin oracle itself alone. -/
theorem digitalRead_pin (port : Int) (w : World) : (digitalRead port w).2.pin = w.pin := rfl

/-- The wait loop when the pin reaches the state after k differing reads. -/
theorem waitLoop_match (P : Target) (port : Int) (state : Bool) (k : Nat) :
    ∀ (fuel count : Nat) (w : World), count + k < TIMEOUT P → k < fuel →
      (∀ i, i < k → w.pin (w.pinIdx + i) ≠ state) → w.pin (w.pinIdx + k) = state →
      (waitLoop P port state fuel count w).1 = count + k ∧
      (waitLoop P port state fuel count w).2.pinIdx = w.pinIdx + k + 1 := by
  induction k with
  | zero =>
    intro fuel count w _ hf _ hm
    obtain ⟨n, rfl⟩ : ∃ n, fuel = n + 1 := ⟨fuel - 1, by omega⟩
    have hv : (digitalRead port w).1 = state := hm
    simp [waitLoop, hv, digitalRead_pinIdx]
  | succ k ih =>
    intro fuel count w hT hf hd hm
    obtain ⟨n, rfl⟩ : ∃ n, fuel = n + 1 := ⟨fuel - 1, by omega⟩
    have hv : (digitalRead port w).1 ≠ state := hd 0 (by omega)
    have hnt : ¬ TIMEOUT P ≤ count + 1 := by omega
    have h := ih n (count + 1) (digitalRead port w).2 (by omega) (by omega)
      (fun i hi => by
        rw [digitalRead_pin, digitalRead_pinIdx]
        have := hd (i + 1) (by omega)
        rwa [show w.pinIdx + 1 + i = w.pinIdx + (i + 1) by omega])
      (by
        rw [digitalRead_pin, digitalRead_pinIdx]
        rwa [show w.pinIdx + 1 + k = w.pinIdx + (k + 1) by omega])
    simp only [waitLoop, bne_iff_ne, ne_eq, hv, not_false_eq_true, if_true, ge_iff_le, hnt,
      if_false]
    rw [digitalRead_pinIdx] at h
    constructor
    · rw [h.1]; omega
    · rw [h.2]; omega

/-- The wait loop when the pin stays away from the state until the counter
reaches TIMEOUT. -/
theorem waitLoop_timeout (P : Target) (port : Int) (state : Bool) (fuel : Nat) :
    ∀ (count : Nat) (w : World), count < TIMEOUT P → TIMEOUT P ≤ fuel + count →
      (∀ i, i < TIMEOUT P - count → w.pin (w.pinIdx + i) ≠ state) →
      (waitLoop P port state fuel count w).1 = 0 ∧
      (waitLoop P port state fuel count w).2.pinIdx = w.pinIdx + (TIMEOUT P - count) := by
  induction fuel with
  | zero => intro count w h1 h2; omega
  | succ n ih =>
    intro count w hc hf hd
    have hv : (digitalRead port w).1 ≠ state := hd 0 (by omega)
    by_cases hT : TIMEOUT P ≤ count + 1
    · simp only [waitLoop, bne_iff_ne, ne_eq, hv, not_false_eq_true, if_true, ge_iff_le, hT]
      refine ⟨trivial, ?_⟩
      rw [digitalRead_pinIdx]; omega
    · have h := ih (count + 1) (digitalRead port w).2 (by omega) (by omega)
        (fun i hi => by
          rw [digitalRead_pin, digitalRead_pinIdx]
          have := hd (i + 1) (by omega)
          rwa [show w.pinIdx + 1 + i = w.pinIdx + (i + 1) by omega])
      simp only [waitLoop, bne_iff_ne, ne_eq, hv, not_false_eq_true, if_true, ge_iff_le, hT,
        if_false]
      rw [digitalRead_pinIdx] at h
      refine ⟨h.1, ?_⟩
      rw [h.2]; omega

/-- The result of the wait loop is the same for every fuel of at least
TIMEOUT - count: the loop ends by itself within that many reads. -/
theorem waitLoop_fuel_tight (P : Target) (port : Int) (state : Bool) (fuel : Nat) :
    ∀ (fuel2 count : Nat) (w : World), 1 ≤ fuel → 1 ≤ fuel2 →
      TIMEOUT P ≤ fuel + count → TIMEOUT P ≤ fuel2 + count →
      waitLoop P port state fuel count w = waitLoop P port state fuel2 count w := by
  induction fuel with
  | zero => intro fuel2 count w h; omega
  | succ n ih =>
    intro fuel2 count w _ h2 h3 h4
    obtain ⟨m, rfl⟩ : ∃ m, fuel2 = m + 1 := ⟨fuel2 - 1, by omega⟩
    simp only [waitLoop]
    split_ifs with hv ht
    · rfl
    · exact ih m (count + 1) _ (by omega) (by omega) (by omega) (by omega)
    · rfl

/-! ## The sampling loop -/

/-- Setting the low bit of an even byte adds 1. -/
theorem lor_one_of_even : ∀ y, y < 256 → y % 2 = 0 → y ||| 1 = y + 1 := by decide!

/-- The two statements m_data[byteN] <<= 1 and m_data[byteN] |= 1 on a byte. -/
theorem shift_lor (x : Nat) : ((x <<< 1) % 256 ||| 1) % 256 = 2 * x % 256 + 1 := by
  have h1 : (x <<< 1) % 256 = 2 * x % 256 := by rw [Nat.shiftLeft_eq]; omega
  rw [h1, lor_one_of_even (2 * x % 256) (Nat.mod_lt _ (by norm_num)) (by omega)]
  omega

/-- One iteration of the sampling loop applies its outcome to the frame. -/
theorem sampleBit_eq (P : Target) (d : Reader) (data : List Nat) (w : World) (bitN : Nat) :
    sampleBit P d (data, w) bitN
      = (applyOutcome data bitN (bitOutcome P d w).1, (bitOutcome P d w).2) := by
  simp only [sampleBit, bitOutcome]
  split_ifs with h1 h2 h3
  · simp only [applyOutcome, decide_eq_true h3, Bool.toNat_true, setByte, getByte]
    rw [List.set_set]
    by_cases hk : bitN / 8 < data.length
    · have hget : ∀ v : Nat, (data.set (bitN / 8) v).getD (bitN / 8) 0 = v := by
        intro v
        rw [List.getD_eq_getElem?_getD, List.getElem?_set_self hk]
        rfl
      rw [hget, shift_lor]
    · rw [List.set_eq_of_length_le (by omega), List.set_eq_of_length_le (by omega)]
  · simp only [applyOutcome, decide_eq_false h3, Bool.toNat_false, setByte, getByte]
    have hs : data.getD (bitN / 8) 0 <<< 1 % 256 = 2 * data.getD (bitN / 8) 0 % 256 + 0 := by
      rw [Nat.shiftLeft_eq]
      omega
    rw [hs]
  · rfl
  · rfl

/-- Successive iterations apply their outcomes in turn. -/
theorem foldl_sampleBit_eq (P : Target) (d : Reader) (n : Nat) :
    ∀ (s : Nat) (data : List Nat) (w : World),
      ((List.range' s n).foldl (sampleBit P d) (data, w)).1
        = applyOutcomes data s (bitOutcomes P d n w) := by
  induction n with
  | zero => intro s data w; rfl
  | succ n ih =>
    intro s data w
    rw [List.range'_succ, List.foldl_cons, sampleBit_eq, ih]
    rfl

/-- The sampling loop applies the outcomes of its 40 iterations. -/
theorem sampleBits_eq (P : Target) (d : Reader) (data : List Nat) (w : World) :
    (sampleBits P d data w).1 = applyOutcomes data 0 (bitOutcomes P d 40 w) := by
  unfold sampleBits
  rw [List.range_eq_range']
  exact foldl_sampleBit_eq P d 40 0 data w

theorem bitOutcomes_length (P : Target) (d : Reader) (n : Nat) :
    ∀ w : World, (bitOutcomes P d n w).length = n := by
  induction n with
  | zero => intro w; rfl
  | succ n ih => intro w; simp [bitOutcomes, ih]

theorem applyOutcome_length (data : List Nat) (bitN : Nat) (o : Option Bool) :
    (applyOutcome data bitN o).length = data.length := by
  cases o <;> simp [applyOutcome]

/-- An outcome for bit bitN touches byte bitN / 8 only. -/
theorem applyOutcome_getByte (data : List Nat) (bitN k : Nat) (o : Option Bool)
    (hk : k < data.length) :
    getByte (applyOutcome data bitN o) k
      = if bitN / 8 = k then shiftByte (getByte data k) o else getByte data k := by
  cases o with
  | none => simp [applyOutcome, shiftByte]
  | some b =>
    simp only [applyOutcome, shiftByte, getByte, List.getD_eq_getElem?_getD]
    by_cases h : bitN / 8 = k
    · subst h
      rw [List.getElem?_set_self hk, if_pos rfl]
      rfl
    · rw [List.getElem?_set_ne h, if_neg h]

theorem applyOutcomes_length (outs : List (Option Bool)) :
    ∀ (s : Nat) (data : List Nat), (applyOutcomes data s outs).length = data.length := by
  induction outs with
  | nil => intro s data; rfl
  | cons o os ih => intro s data; simp [applyOutcomes, ih, applyOutcome_length]

/-- Byte k after successive iterations: the outcomes that fall into byte k,
applied in turn. -/
theorem applyOutcomes_getByte (k : Nat) (outs : List (Option Bool)) :
    ∀ (s : Nat) (data : List Nat), k < data.length →
      getByte (applyOutcomes data s outs) k
        = (outcomesOfByte k s outs).foldl shiftByte (getByte data k) := by
  induction outs with
  | nil => intro s data _; rfl
  | cons o os ih =>
    intro s data hk
    simp only [applyOutcomes, outcomesOfByte]
    rw [ih (s + 1) _ (by rw [applyOutcome_length]; exact hk), applyOutcome_getByte _ _ _ _ hk]
    split_ifs <;> rfl

/-- The outcomes that fall into byte k are those of bits 8k to 8k+7. -/
theorem outcomesOfByte_eq (k : Nat) (outs : List (Option Bool)) :
    ∀ s : Nat, outcomesOfByte k s outs
      = (outs.drop (8 * k - s)).take (8 * k + 8 - max s (8 * k)) := by
  induction outs with
  | nil => intro s; simp [outcomesOfByte]
  | cons o os ih =>
    intro s
    simp only [outcomesOfByte]
    rw [ih (s + 1)]
    by_cases h1 : s < 8 * k
    · have hne : ¬ s / 8 = k := by omega
      rw [if_neg hne]
      obtain ⟨m, hm⟩ : ∃ m, 8 * k - s = m + 1 := ⟨8 * k - s - 1, by omega⟩
      rw [hm, List.drop_succ_cons]
      have e1 : 8 * k - (s + 1) = m := by omega
      have e2 : max (s + 1) (8 * k) = 8 * k := by omega
      have e3 : max s (8 * k) = 8 * k := by omega
      rw [e1, e2, e3]
    · by_cases h2 : s < 8 * k + 8
      · have he : s / 8 = k := by omega
        rw [if_pos he]
        have e0 : 8 * k - s = 0 := by omega
        have e1 : 8 * k - (s + 1) = 0 := by omega
        have e2 : max (s + 1) (8 * k) = s + 1 := by omega
        have e3 : max s (8 * k) = s := by omega
        obtain ⟨m, hm⟩ : ∃ m, 8 * k + 8 - s = m + 1 := ⟨8 * k + 8 - s - 1, by omega⟩
        have e4 : 8 * k + 8 - (s + 1) = m := by omega
        rw [e0, e1, e2, e3, hm, e4]
        simp
      · have hne : ¬ s / 8 = k := by omega
        rw [if_neg hne]
        have e2 : 8 * k + 8 - max (s + 1) (8 * k) = 0 := by omega
        have e3 : 8 * k + 8 - max s (8 * k) = 0 := by omega
        rw [e2, e3]
        simp

theorem msbValue_fold (bs : List Bool) :
    ∀ a : Nat, bs.foldl (fun acc b => 2 * acc + b.toNat) a = a * 2 ^ bs.length + msbValue bs := by
  induction bs with
  | nil => intro a; simp [msbValue]
  | cons b bs ih =>
    intro a
    have h1 := ih (2 * a + b.toNat)
    have h2 := ih (2 * 0 + b.toNat)
    simp only [List.foldl_cons, msbValue, List.length_cons] at h1 h2 ⊢
    rw [h1, h2, pow_succ]
    ring

theorem msbValue_cons (b : Bool) (bs : List Bool) :
    msbValue (b :: bs) = b.toNat * 2 ^ bs.length + msbValue bs := by
  have h := msbValue_fold bs (2 * 0 + b.toNat)
  simp only [msbValue, List.foldl_cons] at h ⊢
  rw [h]
  ring

/-- The value of n bits is below 2 ^ n. -/
theorem msbValue_lt (bs : List Bool) : msbValue bs < 2 ^ bs.length := by
  induction bs with
  | nil => simp [msbValue]
  | cons b bs ih =>
    rw [msbValue_cons, List.length_cons, pow_succ]
    have hb : b.toNat ≤ 1 := by cases b <;> simp
    nlinarith [Nat.mul_le_mul_right (2 ^ bs.length) hb]

/-- A byte after some outcomes: one shift per received bit. -/
theorem foldl_shiftByte (outs : List (Option Bool)) :
    ∀ x : Nat, x < 256 →
      outs.foldl shiftByte x
        = (x * 2 ^ outs.reduceOption.length + msbValue outs.reduceOption) % 256 := by
  induction outs with
  | nil => intro x hx; simp [msbValue]; omega
  | cons o os ih =>
    intro x hx
    cases o with
    | none =>
      rw [List.foldl_cons, List.reduceOption_cons_of_none]
      exact ih x hx
    | some b =>
      have hb : b.toNat ≤ 1 := by cases b <;> simp
      have hx2 : 2 * x % 256 + b.toNat = (2 * x + b.toNat) % 256 := by omega
      rw [List.foldl_cons, List.reduceOption_cons_of_some, List.length_cons, msbValue_cons]
      simp only [shiftByte]
      rw [ih _ (by omega), hx2]
      have hm : ((2 * x + b.toNat) % 256 * 2 ^ os.reduceOption.length
            + msbValue os.reduceOption) % 256
          = ((2 * x + b.toNat) * 2 ^ os.reduceOption.length + msbValue os.reduceOption) % 256 := by
        rw [Nat.add_mod, Nat.mul_mod, Nat.mod_mod, ← Nat.mul_mod, ← Nat.add_mod]
      rw [hm]
      congr 1
      rw [pow_succ]
      ring

/-- Skipped and received bits together are all the outcomes. -/
theorem count_none_add (outs : List (Option Bool)) :
    outs.count none + outs.reduceOption.length = outs.length := by
  induction outs with
  | nil => rfl
  | cons o os ih =>
    cases o with
    | none =>
      rw [List.reduceOption_cons_of_none, List.count_cons_self, List.length_cons]
      omega
    | some b =>
      rw [List.reduceOption_cons_of_some, List.count_cons_of_ne (by simp), List.length_cons,
        List.length_cons]
      omega

/-- A byte shifted m = 8 - t times keeps its t low-order bits on top. -/
theorem keep_low_bits (t m x v : Nat) (htm : t + m = 8) (hv : v < 2 ^ m) :
    (x * 2 ^ m + v) % 256 = x % 2 ^ t * 2 ^ m + v := by
  have ht : t ≤ 8 := by omega
  obtain rfl : m = 8 - t := by omega
  interval_cases t <;> norm_num at hv ⊢ <;> omega

/-- The byte after an iteration whose two waits succeed. -/
theorem sampleBit_success (P : Target) (d : Reader) (data : List Nat) (w : World)
    (bitN : Nat) (hk : bitN / 8 < data.length)
    (hlow : 0 < (waitForState P d HIGH w).1)
    (hhigh : 0 < (waitForState P d LOW (waitForState P d HIGH w).2).1) :
    getByte (sampleBit P d (data, w) bitN).1 (bitN / 8)
      = 2 * getByte data (bitN / 8) % 256
        + if (waitForState P d LOW (waitForState P d HIGH w).2).1 > (waitForState P d HIGH w).1
          then 1 else 0 := by
  rw [sampleBit_eq]
  simp only [bitOutcome, gt_iff_lt, hlow, hhigh, if_true]
  rw [applyOutcome_getByte _ _ _ _ hk, if_pos rfl]
  simp only [shiftByte]
  split_ifs with h <;> simp [h]

/-- The waits depend on the reader through its port only. -/
theorem waitForState_congr (P : Target) (d1 d : Reader) (h : d1.m_port = d.m_port) :
    waitForState P d1 = waitForState P d := by
  funext state w
  simp [waitForState, h]

theorem receive_congr (P : Target) (d1 d : Reader) (w : World) (hp : d1.m_port = d.m_port)
    (hd : d1.m_data = d.m_data) : receive P d1 w = receive P d w := by
  have hw := waitForState_congr P d1 d hp
  have hs : sampleBit P d1 = sampleBit P d := by
    funext acc bitN
    simp [sampleBit, hw]
  simp [receive, waitAck, sampleBits, hw, hs, hd]

/-- The frame after a transaction is the frame after the reception. -/
theorem fetchData_data (P : Target) (d : Reader) (w : World) (hdue : (due P d w).1 = true) :
    (fetchData P d w).1.m_data = (receive P d (receptionStart P d w)).1 := by
  rw [fetchData_of_due P d w hdue]
  have hc := receive_congr P (settle d (due P d w).2).1 d (receptionStart P d w)
    (by unfold settle; split_ifs <;> rfl) (by unfold settle; split_ifs <;> rfl)
  rw [← hc]
  rfl

/-- When highCounter is positive after the start of transmission, the
reception applies the outcomes of the 40 iterations. -/
theorem receive_data (P : Target) (d : Reader) (w : World) (hack : 0 < (waitAck P d w).1) :
    (receive P d w).1 = applyOutcomes d.m_data 0 (bitOutcomes P d 40 (waitAck P d w).2) := by
  simp only [receive, gt_iff_lt, hack, if_true]
  exact sampleBits_eq P d d.m_data _

theorem getByte_lt (data : List Nat) (k : Nat) (h : ∀ x ∈ data, x < 256) :
    getByte data k < 256 := by
  unfold getByte
  rw [List.getD_eq_getElem?_getD]
  cases hx : data[k]? with
  | none => simp
  | some x => exact h x (List.getElem?_mem hx)

/-- Byte k after the 40 iterations, from the byte before and the eight
outcomes that fall into it. -/
theorem applyOutcomes_byte (data : List Nat) (outs : List (Option Bool)) (k : Nat)
    (hk : k < data.length) (hbytes : ∀ x ∈ data, x < 256)
    (hlen : (List.take 8 (List.drop (8 * k) outs)).length = 8) :
    getByte (applyOutcomes data 0 outs) k
      = getByte data k % 2 ^ (List.take 8 (List.drop (8 * k) outs)).count none
          * 2 ^ (8 - (List.take 8 (List.drop (8 * k) outs)).count none)
        + msbValue (List.take 8 (List.drop (8 * k) outs)).reduceOption := by
  rw [applyOutcomes_getByte k outs 0 data hk, outcomesOfByte_eq]
  have e1 : 8 * k - 0 = 8 * k := by omega
  have e2 : 8 * k + 8 - max 0 (8 * k) = 8 := by omega
  rw [e1, e2, foldl_shiftByte _ _ (getByte_lt data k hbytes)]
  have hc := count_none_add (List.take 8 (List.drop (8 * k) outs))
  rw [hlen] at hc
  have hm : (List.take 8 (List.drop (8 * k) outs)).reduceOption.length
      = 8 - (List.take 8 (List.drop (8 * k) outs)).count none := by omega
  have hv := msbValue_lt (List.take 8 (List.drop (8 * k) outs)).reduceOption
  rw [hm] at hv ⊢
  exact keep_low_bits _ _ _ _ (by omega) hv

/-! ## Packing and the trace, further facts -/

theorem reduceOption_map_some (l : List Bool) : (l.map some).reduceOption = l := by
  induction l with
  | nil => rfl
  | cons b l ih => rw [List.map_cons, List.reduceOption_cons_of_some, ih]

theorem count_none_map_some (l : List Bool) : (l.map some).count none = 0 := by
  induction l with
  | nil => rfl
  | cons b l ih => rw [List.map_cons, List.count_cons_of_ne (by simp), ih]

/-- The value of eight bits as the sum of bit i times 2^(7-i). -/
theorem msbValue_eight (l : List Bool) (h : l.length = 8) :
    msbValue l = ((List.range 8).map (fun i => (l.getD i false).toNat * 2 ^ (7 - i))).sum := by
  match l, h with
  | [b0, b1, b2, b3, b4, b5, b6, b7], _ =>
    simp [msbValue, List.range, List.range.loop]
    ring

theorem getD_take_drop (bits : List Bool) (n i : Nat) (hi : i < 8) :
    (List.take 8 (List.drop n bits)).getD i false = bits.getD (n + i) false := by
  simp only [List.getD_eq_getElem?_getD]
  rw [List.getElem?_take_of_lt hi, List.getElem?_drop]

theorem msbValue_take_drop (bits : List Bool) (k : Nat)
    (h : (List.take 8 (List.drop (8 * k) bits)).length = 8) :
    msbValue (List.take 8 (List.drop (8 * k) bits)) = msbByte bits k := by
  rw [msbValue_eight _ h]
  unfold msbByte
  congr 1
  apply List.map_congr_left
  intro i hi
  rw [getD_take_drop bits (8 * k) i (List.mem_range.mp hi)]

/-- A frame is its five bytes. -/
theorem list_of_five (l : List Nat) (h : l.length = 5) :
    l = (List.range 5).map (getByte l) := by
  match l, h with
  | [a, b, c, d, e], _ => rfl

/-- The test of the outer if emits the clock read, or nothing on the first call. -/
theorem due_trace (P : Target) (d : Reader) (w : World) :
    (due P d w).2.trace = w.trace ++ dueEvents P d w := by
  cases hf : d.m_firstTime
  · rw [due_ready P d w hf]
    simp [dueEvents, hf, millis, emit]
  · rw [due_first P d w hf]
    simp [dueEvents, hf]

/-- Pin reads are neither noInterrupts nor interrupts. -/
theorem count_reads (reads : List Event) (h : ∀ e ∈ reads, isRead e = true) :
    reads.count Event.noInterrupts = 0 ∧ reads.count Event.interrupts = 0 := by
  constructor <;>
  · rw [List.count_eq_zero]
    intro hm
    have := h _ hm
    simp [isRead] at this

/-- An accessor call keeps the cached pair in step with the frame. -/
theorem call_coherent (P : Target) (a : Accessor) (d : Reader) (w : World)
    (h : Coherent P d) : Coherent P (call P a d w).2.1 := by
  rw [call_reader]
  unfold Coherent at h ⊢
  cases hd : (due P d w).1
  · rw [fetchData_of_not_due P d w hd]; exact h
  · rw [fetchData_of_due P d w hd]; exact transaction_cached P d _

/-! ## Timeouts inside the sampling loop -/

theorem timesOut_spec (P : Target) (state : Bool) (w : World) (h : timesOut P state w = true) :
    ∀ i, i < TIMEOUT P → w.pin (w.pinIdx + i) ≠ state := by
  intro i hi
  unfold timesOut at h
  rw [List.all_eq_true] at h
  have := h i (List.mem_range.mpr hi)
  simpa using this

/-- A wait that times out returns 0. -/
theorem waitForState_timesOut (P : Target) (d : Reader) (state : Bool) (w : World)
    (hT : 1 ≤ TIMEOUT P) (h : timesOut P state w = true) :
    (waitForState P d state w).1 = 0 :=
  (waitLoop_timeout P d.m_port state (TIMEOUT P + 1) 0 w (by omega) (by omega)
    (timesOut_spec P state w h)).1

/-- A wait that finds the pin at the awaited state at its first read returns 0. -/
theorem waitForState_immediate (P : Target) (d : Reader) (state : Bool) (w : World)
    (h : w.pin w.pinIdx = state) : (waitForState P d state w).1 = 0 := by
  have hv : (digitalRead d.m_port w).1 = state := h
  simp [waitForState, waitLoop, hv]

/-- An iteration shifts no bit in exactly when one of its waits returns 0. -/
theorem bitOutcome_none_iff (P : Target) (d : Reader) (w : World) :
    (bitOutcome P d w).1 = none ↔
      ((waitForState P d HIGH w).1 = 0 ∨
        (waitForState P d LOW (waitForState P d HIGH w).2).1 = 0) := by
  unfold bitOutcome
  split_ifs with h1 h2
  · simp only [reduceCtorEq, false_iff]
    omega
  · simp only [true_iff]
    omega
  · simp only [true_iff]
    omega

/-- An iteration with a wait that times out shifts no bit in. -/
theorem bitOutcome_of_bitTimesOut (P : Target) (d : Reader) (w : World)
    (hT : 1 ≤ TIMEOUT P) (h : bitTimesOut P d w = true) : (bitOutcome P d w).1 = none := by
  rw [bitOutcome_none_iff]
  unfold bitTimesOut at h
  rw [Bool.or_eq_true, Bool.and_eq_true] at h
  rcases h with h | ⟨_, h⟩
  · exact Or.inl (waitForState_timesOut P d HIGH w hT h)
  · exact Or.inr (waitForState_timesOut P d LOW _ hT h)

/-- Outcome j of the loop is the outcome of the iteration started in the
world that the first j iterations leave. -/
theorem bitOutcomes_getElem (P : Target) (d : Reader) (n : Nat) :
    ∀ (j : Nat) (w : World), j < n →
      (bitOutcomes P d n w)[j]? = some (bitOutcome P d (bitWorld P d j w)).1 := by
  induction n with
  | zero => intro j w h; omega
  | succ n ih =>
    intro j w hj
    cases j with
    | zero => simp [bitOutcomes, bitWorld]
    | succ j =>
      simp only [bitOutcomes, bitWorld, List.getElem?_cons_succ]
      exact ih j _ (by omega)

/-- The combination of two bytes with a 16-bit int, for either value of
the top bit of the high byte. -/
theorem combine_int16 (P : Target) (hi lo : Nat) (hint : P.intBits = 16)
    (hhi : hi < 256) (hlo : lo < 256) :
    combine P hi lo
      = if hi < 0x80 then 256 * (hi : Int) + lo else 256 * (hi : Int) + lo - 65536 := by
  split_ifs with h
  · exact combine_unsigned P hi lo (by omega) hhi hlo (Or.inr h)
  · exact combine_signed16 P hi lo hint hhi hlo (by omega)

/-! ## Decoding the frame (claims C1 and C2) -/

/-- C1 (amended).  When fetchData performs a bus transaction and leaves the
frame [b0,b1,b2,b3,b4] with b4 = (b0+b1+b2+b3) mod 256 in m_data, the
relative humidity is (256*b0 + b1)/10 and the temperature (256*b2 + b3)/10,
as exact rationals, provided int is wider than 16 bits or both high bytes
b0 and b2 are below 0x80. -/
theorem fetchData_valid_frame (P : Target) (d : Reader) (w : World)
    (b0 b1 b2 b3 b4 : Nat) (hint : 16 ≤ P.intBits)
    (hdue : (due P d w).1 = true)
    (hdata : (fetchData P d w).1.m_data = [b0, b1, b2, b3, b4])
    (h0 : b0 < 256) (h1 : b1 < 256) (h2 : b2 < 256) (h3 : b3 < 256)
    (hck : b4 = (b0 + b1 + b2 + b3) % 256)
    (hfit : 17 ≤ P.intBits ∨ (b0 < 128 ∧ b2 < 128)) :
    (fetchData P d w).1.m_relativeHumidity = (256 * (b0 : ℚ) + b1) / 10 ∧
    (fetchData P d w).1.m_temperature = (256 * (b2 : ℚ) + b3) / 10 := by
  rw [fetchData_of_due P d w hdue] at hdata ⊢
  have hc := transaction_cached P d (due P d w).2
  rw [hdata] at hc
  have hh : combine P b0 b1 = 256 * (b0 : Int) + b1 :=
    combine_unsigned P b0 b1 hint h0 h1 (hfit.imp id And.left)
  have ht : combine P b2 b3 = 256 * (b2 : Int) + b3 :=
    combine_unsigned P b2 b3 hint h2 h3 (hfit.imp id And.right)
  simp only [decode, getByte, List.getD_cons_zero, List.getD_cons_succ, hck, if_true, hh, ht,
    Prod.mk.injEq] at hc
  refine ⟨by rw [hc.1]; push_cast; ring, by rw [hc.2]; push_cast; ring⟩

/-- Witness of C1: on an Arduino Uno a fresh reader that receives the frame
[0x01,0x90,0x01,0x04,0x96] reports humidity 40.0 and temperature 26.0. -/
theorem fetchData_valid_frame_witness :
    (due uno (new 2) (worldOf (frameLevels [0x01, 0x90, 0x01, 0x04, 0x96]) [5000])).1 = true ∧
    (fetchData uno (new 2)
      (worldOf (frameLevels [0x01, 0x90, 0x01, 0x04, 0x96]) [5000])).1.m_data
        = [0x01, 0x90, 0x01, 0x04, 0x96] ∧
    (fetchData uno (new 2)
      (worldOf (frameLevels [0x01, 0x90, 0x01, 0x04, 0x96]) [5000])).1.m_relativeHumidity
        = 40 ∧
    (fetchData uno (new 2)
      (worldOf (frameLevels [0x01, 0x90, 0x01, 0x04, 0x96]) [5000])).1.m_temperature
        = 26 := by
  have h := fetchData_valid_frame uno (new 2)
    (worldOf (frameLevels [0x01, 0x90, 0x01, 0x04, 0x96]) [5000])
    0x01 0x90 0x01 0x04 0x96 (by decide) (by decide!) (by decide!)
    (by decide) (by decide) (by decide) (by decide) (by decide) (Or.inr (by decide))
  refine ⟨by decide!, by decide!, ?_, ?_⟩
  · rw [h.1]; norm_num
  · rw [h.2]; norm_num

/-- Counterexample to C1 as stated: on an Arduino Uno (16-bit int) the valid
frame [0x01,0x90,0x80,0x01,0x12], which a sensor at -0.1 degrees sends,
gives the temperature -3276.7 and not (256*0x80 + 0x01)/10 = 3276.9. -/
theorem fetchData_valid_frame_counterexample :
    (due uno (new 2) (worldOf (frameLevels [0x01, 0x90, 0x80, 0x01, 0x12]) [5000])).1 = true ∧
    (fetchData uno (new 2)
      (worldOf (frameLevels [0x01, 0x90, 0x80, 0x01, 0x12]) [5000])).1.m_data
        = [0x01, 0x90, 0x80, 0x01, 0x12] ∧
    0x12 = (0x01 + 0x90 + 0x80 + 0x01) % 256 ∧
    (fetchData uno (new 2)
      (worldOf (frameLevels [0x01, 0x90, 0x80, 0x01, 0x12]) [5000])).1.m_temperature
        = -32767 / 10 ∧
    (fetchData uno (new 2)
      (worldOf (frameLevels [0x01, 0x90, 0x80, 0x01, 0x12]) [5000])).1.m_temperature
        ≠ (256 * ((0x80 : Nat) : ℚ) + ((0x01 : Nat) : ℚ)) / 10 := by
  refine ⟨by decide!, by decide!, by decide, by decide!, by decide!⟩

/-- C2.  When fetchData performs a bus transaction and leaves a frame
[b0,b1,b2,b3,b4] with b4 different from (b0+b1+b2+b3) mod 256 in m_data,
the cached relative humidity and temperature are both 0 afterwards,
whatever they were before. -/
theorem fetchData_bad_checksum (P : Target) (d : Reader) (w : World)
    (b0 b1 b2 b3 b4 : Nat)
    (hdue : (due P d w).1 = true)
    (hdata : (fetchData P d w).1.m_data = [b0, b1, b2, b3, b4])
    (hck : b4 ≠ (b0 + b1 + b2 + b3) % 256) :
    (fetchData P d w).1.m_relativeHumidity = 0 ∧
    (fetchData P d w).1.m_temperature = 0 := by
  rw [fetchData_of_due P d w hdue] at hdata ⊢
  have hc := transaction_cached P d (due P d w).2
  rw [hdata] at hc
  simp only [decode, getByte, List.getD_cons_zero, List.getD_cons_succ, hck, if_false,
    Prod.mk.injEq] at hc
  exact hc

/-- Witness of C2: a reader caching 40.0 and 26.0 that receives the frame
[0x01,0x90,0x01,0x04,0x00] caches 0 and 0 afterwards. -/
theorem fetchData_bad_checksum_witness :
    warmReader.m_relativeHumidity = 40 ∧ warmReader.m_temperature = 26 ∧
    (due uno warmReader
      (worldOf (frameLevels [0x01, 0x90, 0x01, 0x04, 0x00]) [3000, 3001])).1 = true ∧
    (fetchData uno warmReader
      (worldOf (frameLevels [0x01, 0x90, 0x01, 0x04, 0x00]) [3000, 3001])).1.m_data
        = [0x01, 0x90, 0x01, 0x04, 0x00] ∧
    0x00 ≠ (0x01 + 0x90 + 0x01 + 0x04) % 256 ∧
    (fetchData uno warmReader
      (worldOf (frameLevels [0x01, 0x90, 0x01, 0x04, 0x00]) [3000, 3001])).1.m_relativeHumidity
        = 0 ∧
    (fetchData uno warmReader
      (worldOf (frameLevels [0x01, 0x90, 0x01, 0x04, 0x00]) [3000, 3001])).1.m_temperature
        = 0 :=
  ⟨rfl, rfl, by decide!, by decide!, by decide,
    fetchData_bad_checksum uno warmReader
      (worldOf (frameLevels [0x01, 0x90, 0x01, 0x04, 0x00]) [3000, 3001])
      0x01 0x90 0x01 0x04 0x00 (by decide!) (by decide!) (by decide)⟩

/-! ## The polling interval (claims C3, C4 and C5) -/

/-- C3.  Take two consecutive accessor calls, any mix of temperature and
relativeHumidity, from any reader state in any world.  If the clock read by
the second call is at most 2000 ms, as a difference modulo 2 ^ ulongBits,
after the m_lastRead left by the first call, then the second call leaves
the whole reader state unchanged, only reads the clock (no pin read, no
other event), returns the same value as the first call when it is the same
accessor, and the two calls together start at most one bus transaction. -/
theorem second_call_cached (P : Target) (a1 a2 : Accessor) (d : Reader) (w : World)
    (hclose : (((millis P (call P a1 d w).2.2).1 : ℤ) - (call P a1 d w).2.1.m_lastRead)
      % 2 ^ P.ulongBits ≤ 2000) :
    (call P a2 (call P a1 d w).2.1 (call P a1 d w).2.2).2.1 = (call P a1 d w).2.1 ∧
    (call P a2 (call P a1 d w).2.1 (call P a1 d w).2.2).2.2.trace
      = (call P a1 d w).2.2.trace ++ [Event.millis (millis P (call P a1 d w).2.2).1] ∧
    (call P a2 (call P a1 d w).2.1 (call P a1 d w).2.2).2.2.pinIdx
      = (call P a1 d w).2.2.pinIdx ∧
    (a2 = a1 →
      (call P a2 (call P a1 d w).2.1 (call P a1 d w).2.2).1 = (call P a1 d w).1) ∧
    startSignals (call P a2 (call P a1 d w).2.1 (call P a1 d w).2.2).2.2.trace
      ≤ startSignals w.trace + 1 := by
  rw [call_reader, call_world] at hclose
  simp only [call_reader, call_world, call_value]
  generalize hd1 : (fetchData P d w).1 = d1 at *
  generalize hw1 : (fetchData P d w).2 = w1 at *
  have hf : d1.m_firstTime = false := by rw [← hd1]; exact fetchData_firstTime P d w
  have hts : (timeSinceLastRead P d1 w1).1 ≤ TWO_SECONDS := by
    have := timeSince_eq P d1 w1
    rw [← this] at hclose
    unfold TWO_SECONDS
    exact_mod_cast hclose
  rw [fetchData_idle P d1 w1 hf hts]
  refine ⟨rfl, by simp [millis, emit], by simp [millis, emit], ?_, ?_⟩
  · intro h; rw [h]
  · have h1 := startSignals_fetchData_le P d w
    rw [hw1] at h1
    simpa [millis, emit, startSignals, isStart] using h1

/-- Witness of C3: a fresh reader on an Arduino Uno is asked for the
temperature at time 5000 and for the relative humidity at time 6000.  The
first call returns 26.0, the second returns 40.0 from the cache, leaves the
reader unchanged, and the trace holds one start signal. -/
theorem second_call_cached_witness :
    (((millis uno (call uno Accessor.temperature (new 2) goodWorld).2.2).1 : ℤ)
        - (call uno Accessor.temperature (new 2) goodWorld).2.1.m_lastRead) % 2 ^ uno.ulongBits
      ≤ 2000 ∧
    (call uno Accessor.temperature (new 2) goodWorld).1 = 26 ∧
    (call uno Accessor.relativeHumidity
      (call uno Accessor.temperature (new 2) goodWorld).2.1
      (call uno Accessor.temperature (new 2) goodWorld).2.2).1 = 40 ∧
    (call uno Accessor.relativeHumidity
      (call uno Accessor.temperature (new 2) goodWorld).2.1
      (call uno Accessor.temperature (new 2) goodWorld).2.2).2.1
        = (call uno Accessor.temperature (new 2) goodWorld).2.1 ∧
    startSignals (call uno Accessor.relativeHumidity
      (call uno Accessor.temperature (new 2) goodWorld).2.1
      (call uno Accessor.temperature (new 2) goodWorld).2.2).2.2.trace
        ≤ startSignals goodWorld.trace + 1 := by
  have hc : (((millis uno (call uno Accessor.temperature (new 2) goodWorld).2.2).1 : ℤ)
        - (call uno Accessor.temperature (new 2) goodWorld).2.1.m_lastRead) % 2 ^ uno.ulongBits
      ≤ 2000 := by decide!
  have h := second_call_cached uno Accessor.temperature Accessor.relativeHumidity (new 2)
    goodWorld hc
  exact ⟨hc, by decide!, by decide!, h.1, h.2.2.2.2⟩

/-- C4.  For a reader whose first-time flag is clear, a call of either
accessor starts a bus transaction if and only if (current - m_lastRead) mod
2 ^ ulongBits exceeds 2000, whether or not the current clock value is below
m_lastRead; otherwise the call returns the cached value, leaves the reader
state unchanged and only reads the clock. -/
theorem refresh_iff_elapsed (P : Target) (a : Accessor) (d : Reader) (w : World)
    (hready : d.m_firstTime = false) :
    (startSignals (call P a d w).2.2.trace = startSignals w.trace + 1 ↔
      2000 < (((millis P w).1 : ℤ) - d.m_lastRead) % 2 ^ P.ulongBits) ∧
    (¬ 2000 < (((millis P w).1 : ℤ) - d.m_lastRead) % 2 ^ P.ulongBits →
      (call P a d w).1 = cached a d ∧
      (call P a d w).2.1 = d ∧
      (call P a d w).2.2.trace = w.trace ++ [Event.millis (millis P w).1] ∧
      (call P a d w).2.2.pinIdx = w.pinIdx) := by
  simp only [call_reader, call_world, call_value]
  have hts := timeSince_eq P d w
  rw [← hts]
  by_cases h : (timeSinceLastRead P d w).1 ≤ TWO_SECONDS
  · have hi := fetchData_idle P d w hready h
    have hn : ¬ (2000 : ℤ) < ((timeSinceLastRead P d w).1 : ℤ) := by
      unfold TWO_SECONDS at h
      push_cast [not_lt]
      exact_mod_cast h
    rw [hi]
    refine ⟨⟨fun hs => ?_, fun hlt => absurd hlt hn⟩, fun _ => ⟨rfl, rfl,
      by simp [millis, emit], by simp [millis, emit]⟩⟩
    simp [millis, emit, startSignals, isStart] at hs
  · have hlt : (2000 : ℤ) < ((timeSinceLastRead P d w).1 : ℤ) := by
      unfold TWO_SECONDS at h
      exact_mod_cast not_le.mp h
    have hd : (due P d w).1 = true := by
      rw [due_ready P d w hready]
      simpa using not_le.mp h
    refine ⟨⟨fun _ => hlt, fun _ => ?_⟩, fun hn => absurd hlt hn⟩
    rw [fetchData_of_due P d w hd, startSignals_transaction, startSignals_due]

/-- Witness of C4, across the wraparound of the clock: m_lastRead is
2^32 - 6 and the clock reads 3000, which is numerically less; the elapsed
time is 3006 and a transaction is started. -/
theorem refresh_iff_elapsed_witness :
    lateReader.m_firstTime = false ∧
    (millis uno (worldOf (frameLevels [0x01, 0x90, 0x01, 0x04, 0x96]) [3000, 3005])).1
      < lateReader.m_lastRead ∧
    startSignals (call uno Accessor.temperature lateReader
      (worldOf (frameLevels [0x01, 0x90, 0x01, 0x04, 0x96]) [3000, 3005])).2.2.trace
      = startSignals (worldOf (frameLevels [0x01, 0x90, 0x01, 0x04, 0x96])
          [3000, 3005]).trace + 1 :=
  ⟨rfl, by decide,
    (refresh_iff_elapsed uno Accessor.temperature lateReader
      (worldOf (frameLevels [0x01, 0x90, 0x01, 0x04, 0x96]) [3000, 3005]) rfl).1.mpr
      (by decide)⟩

/-- C5.  For every m_lastRead below 2 ^ ulongBits and every clock value,
timeSinceLastRead returns (current - last) mod 2 ^ ulongBits: both as the
remainder of the integer difference and as (current + 2 ^ ulongBits - last)
mod 2 ^ ulongBits.  The function has two branches and the statement holds
for both; its only effect on the world is the clock read. -/
theorem timeSinceLastRead_modular (P : Target) (d : Reader) (w : World)
    (hlast : d.m_lastRead < 2 ^ P.ulongBits) :
    ((timeSinceLastRead P d w).1 : ℤ)
      = (((millis P w).1 : ℤ) - d.m_lastRead) % 2 ^ P.ulongBits ∧
    (timeSinceLastRead P d w).1
      = ((millis P w).1 + 2 ^ P.ulongBits - d.m_lastRead) % 2 ^ P.ulongBits ∧
    (timeSinceLastRead P d w).2 = (millis P w).2 := by
  refine ⟨timeSince_eq P d w, ?_, rfl⟩
  have h := timeSince_eq P d w
  have hle : d.m_lastRead ≤ (millis P w).1 + 2 ^ P.ulongBits := by omega
  have hz : (((millis P w).1 + 2 ^ P.ulongBits - d.m_lastRead : ℕ) : ℤ)
      = ((millis P w).1 : ℤ) - d.m_lastRead + ((2 ^ P.ulongBits : ℕ) : ℤ) := by
    rw [Nat.cast_sub hle]
    push_cast
    ring
  have hcast : ((((millis P w).1 + 2 ^ P.ulongBits - d.m_lastRead) % 2 ^ P.ulongBits : ℕ) : ℤ)
      = (((millis P w).1 : ℤ) - d.m_lastRead) % 2 ^ P.ulongBits := by
    rw [Int.natCast_mod, hz, Int.add_emod_self]
    push_cast
    rfl
  exact_mod_cast h.trans hcast.symm

/-- Witness of C5: with a 32-bit unsigned long, last = MAX_UINT - 5 and
current = 10 give 16. -/
theorem timeSinceLastRead_modular_witness :
    lateReader.m_lastRead = 2 ^ 32 - 1 - 5 ∧ lateReader.m_lastRead < 2 ^ uno.ulongBits ∧
    (millis uno (worldOf [] [10])).1 = 10 ∧
    (timeSinceLastRead uno lateReader (worldOf [] [10])).1 = 16 := by
  have h := (timeSinceLastRead_modular uno lateReader (worldOf [] [10]) (by decide)).2.1
  refine ⟨by decide, by decide, by decide, ?_⟩
  rw [h]
  decide

/-! ## The first call (claim C6) -/

/-- C6.  On a freshly constructed reader the first call of either accessor,
for every clock and every pin behaviour, emits exactly these events after
those already in the trace: pinMode INPUT_PULLUP and delay 1000 (the settle
block), then the request signal (pinMode OUTPUT, digitalWrite LOW, delay 2,
pinMode INPUT_PULLUP), noInterrupts, pin reads only, interrupts and the
clock read.  So the settle delay precedes every step of the transaction,
and the transaction is performed in that same call. -/
theorem first_call_settles (P : Target) (port : Int) (a : Accessor) (w : World) :
    ∃ reads : List Event, (∀ e ∈ reads, isRead e = true) ∧
      (call P a (new port) w).2.2.trace
        = w.trace
          ++ [Event.pinMode port PinMode.INPUT_PULLUP, Event.delay 1000]
          ++ [Event.pinMode port PinMode.OUTPUT, Event.digitalWrite port false,
              Event.delay 2, Event.pinMode port PinMode.INPUT_PULLUP, Event.noInterrupts]
          ++ reads
          ++ [Event.interrupts, Event.millis (call P a (new port) w).2.1.m_lastRead] := by
  rw [call_reader, call_world]
  have hd : (due P (new port) w).1 = true := by rw [due_first P _ w rfl]
  rw [fetchData_of_due P _ w hd, due_first P _ w rfl]
  obtain ⟨reads, hr, ht, -, -⟩ := transaction_trace P (new port) w
  exact ⟨reads, hr, ht⟩

/-! ## Timeouts (claims C7, C8 and C9) -/

/-- C7, evaluated at a failing input.  On an Arduino Uno a fresh reader
starts a transaction; the first wait of the start of transmission succeeds
(count 1), the second one times out: the pin reads LOW at all TIMEOUT reads
and the wait returns 0.  The 40 bits are sampled all the same: the frame
changes from [0,0,0,0,0] to [0x01,0x90,0x01,0x04,0x96], the cached values
become 40.0 and 26.0, and 298 pin reads are made in all. -/
theorem ack_timeout_still_samples :
    (waitForState uno (new 2) LOW (receptionStart uno (new 2) lostEdgeWorld)).1 = 1 ∧
    (waitForState uno (new 2) HIGH
      (waitForState uno (new 2) LOW (receptionStart uno (new 2) lostEdgeWorld)).2).1 = 0 ∧
    (∀ i < TIMEOUT uno, lostEdgeWorld.pin (2 + i) = LOW) ∧
    (new 2).m_data = [0, 0, 0, 0, 0] ∧
    (fetchData uno (new 2) lostEdgeWorld).1.m_data = [0x01, 0x90, 0x01, 0x04, 0x96] ∧
    (fetchData uno (new 2) lostEdgeWorld).1.m_relativeHumidity = 40 ∧
    (fetchData uno (new 2) lostEdgeWorld).1.m_temperature = 26 ∧
    (fetchData uno (new 2) lostEdgeWorld).2.pinIdx = 298 := by
  refine ⟨by decide!, by decide!, by decide!, rfl, by decide!, by decide!, by decide!,
    by decide!⟩

/-- C8 (amended).  Take a reader state reached from the constructor and a
call of fetchData that performs a transaction in which highCounter is
positive after the start of transmission, on a target with TIMEOUT at least
1.  If in iteration j of the sampling loop a wait times out (the first wait,
or the second after the first succeeded, finds the pin away from the awaited
level at TIMEOUT successive reads), that iteration leaves the frame as it is
(outcome j is: no bit), and the loop goes on: each of the 40 iterations runs
from the world the one before it leaves, and m_data after the call is the
frame before with the outcomes of all 40 iterations applied in turn.  The
cached relative humidity and temperature after the call are the decode of
that frame (0 and 0 when its checksum does not match); they are the values
cached before the call when the frame is the one before the call.
m_lastRead becomes the clock value read after the sampling. -/
theorem fetchData_bit_timeout (P : Target) (d : Reader) (w : World) (j : Nat)
    (hreach : Reachable P d) (hdue : (due P d w).1 = true)
    (hack : 0 < (waitAck P d (receptionStart P d w)).1)
    (hT : 1 ≤ TIMEOUT P) (hj : j < 40)
    (htime : bitTimesOut P d
      (bitWorld P d j (waitAck P d (receptionStart P d w)).2) = true) :
    (∀ frame : List Nat,
      (sampleBit P d
        (frame, bitWorld P d j (waitAck P d (receptionStart P d w)).2) j).1 = frame) ∧
    (bitOutcomes P d 40 (waitAck P d (receptionStart P d w)).2)[j]? = some none ∧
    (∀ i, i < 40 →
      (bitOutcomes P d 40 (waitAck P d (receptionStart P d w)).2)[i]?
        = some (bitOutcome P d
            (bitWorld P d i (waitAck P d (receptionStart P d w)).2)).1) ∧
    (fetchData P d w).1.m_data
      = applyOutcomes d.m_data 0
          (bitOutcomes P d 40 (waitAck P d (receptionStart P d w)).2) ∧
    ((fetchData P d w).1.m_relativeHumidity, (fetchData P d w).1.m_temperature)
      = decode P (fetchData P d w).1.m_data ∧
    ((fetchData P d w).1.m_data = d.m_data →
      (fetchData P d w).1.m_relativeHumidity = d.m_relativeHumidity ∧
      (fetchData P d w).1.m_temperature = d.m_temperature) ∧
    (fetchData P d w).1.m_lastRead
      = (due P d w).2.clock (due P d w).2.clockIdx % 2 ^ P.ulongBits := by
  have hnone := bitOutcome_of_bitTimesOut P d _ hT htime
  have hc : ((fetchData P d w).1.m_relativeHumidity, (fetchData P d w).1.m_temperature)
      = decode P (fetchData P d w).1.m_data := by
    rw [fetchData_of_due P d w hdue]; exact transaction_cached P d _
  refine ⟨fun frame => ?_, ?_, fun i hi => bitOutcomes_getElem P d 40 i _ hi, ?_, hc,
    fun hsame => ?_, ?_⟩
  · rw [sampleBit_eq, hnone]
    rfl
  · rw [bitOutcomes_getElem P d 40 j _ hj, hnone]
  · rw [fetchData_data P d w hdue, receive_data P d _ hack]
  · rw [hsame, ← reachable_cached P d hreach] at hc
    exact Prod.mk.inj hc
  · rw [fetchData_of_due P d w hdue]
    obtain ⟨_, _, _, hl, _⟩ := transaction_trace P d (due P d w).2
    exact hl

/-- Witness of C8: on a 1 MHz target the first wait of the first data bit
succeeds and its second wait times out; the other 39 bits are shifted in,
the frame becomes [0x81,0x90,0x01,0x04,0x96], whose checksum fails, the
cached values become 0 and 0, and m_lastRead becomes 3001. -/
theorem fetchData_bit_timeout_witness :
    Reachable attiny warmReader ∧ (due attiny warmReader longHighWorld).1 = true ∧
    0 < (waitAck attiny warmReader (receptionStart attiny warmReader longHighWorld)).1 ∧
    1 ≤ TIMEOUT attiny ∧
    bitTimesOut attiny warmReader (bitWorld attiny warmReader 0
      (waitAck attiny warmReader (receptionStart attiny warmReader longHighWorld)).2) = true ∧
    0 < (waitForState attiny warmReader HIGH
      (waitAck attiny warmReader (receptionStart attiny warmReader longHighWorld)).2).1 ∧
    (bitOutcomes attiny warmReader 40
      (waitAck attiny warmReader (receptionStart attiny warmReader longHighWorld)).2)[0]?
        = some none ∧
    (fetchData attiny warmReader longHighWorld).1.m_data = [0x81, 0x90, 0x01, 0x04, 0x96] ∧
    (fetchData attiny warmReader longHighWorld).1.m_relativeHumidity = 0 ∧
    (fetchData attiny warmReader longHighWorld).1.m_temperature = 0 ∧
    (fetchData attiny warmReader longHighWorld).1.m_lastRead = 3001 := by
  have hr : Reachable attiny warmReader := warmReader_reachable
  have h := fetchData_bit_timeout attiny warmReader longHighWorld 0 hr (by decide)
    (by decide!) (by decide) (by decide) (by decide!)
  refine ⟨hr, by decide, by decide!, by decide, by decide!, by decide!, h.2.1, ?_, ?_, ?_, ?_⟩
  · rw [h.2.2.2.1]; decide!
  · decide!
  · decide!
  · rw [h.2.2.2.2.2.2]; decide

/-- Counterexample to C8 as stated: on an Arduino Uno a reader that decoded
40.0 and 26.0 performs a transaction in which the start of transmission
succeeds and the first wait of the sampling loop times out (TIMEOUT reads
of LOW); the other 39 bits are shifted in, the frame becomes
[0x81,0x90,0x01,0x04,0x96], its checksum fails and both cached values
become 0. -/
theorem fetchData_bit_timeout_counterexample :
    warmReader = (fetchData uno (new 2)
      (worldOf (frameLevels [0x01, 0x90, 0x01, 0x04, 0x96]) [0])).1 ∧
    (due uno warmReader lostBitWorld).1 = true ∧
    0 < (waitAck uno warmReader (receptionStart uno warmReader lostBitWorld)).1 ∧
    (waitForState uno warmReader HIGH
      (waitAck uno warmReader (receptionStart uno warmReader lostBitWorld)).2).1 = 0 ∧
    (∀ i < TIMEOUT uno, lostBitWorld.pin (6 + i) = LOW) ∧
    warmReader.m_relativeHumidity = 40 ∧ warmReader.m_temperature = 26 ∧
    (fetchData uno warmReader lostBitWorld).1.m_data = [0x81, 0x90, 0x01, 0x04, 0x96] ∧
    (fetchData uno warmReader lostBitWorld).1.m_relativeHumidity = 0 ∧
    (fetchData uno warmReader lostBitWorld).1.m_temperature = 0 := by
  refine ⟨by decide!, by decide, by decide!, by decide!, by decide!, rfl, rfl, by decide!,
    by decide!, by decide!⟩

/-- C9.  Whenever fetchData performs a bus transaction, the trace ends with
noInterrupts, pin reads only, interrupts and one clock read, and m_lastRead
is the value of that clock read.  This holds for every pin behaviour, so
on every path: timeout in the start of transmission, timeout of a bit,
checksum mismatch and successful decode. -/
theorem fetchData_records_time (P : Target) (d : Reader) (w : World)
    (hdue : (due P d w).1 = true) :
    ∃ before reads : List Event, (∀ e ∈ reads, isRead e = true) ∧
      (fetchData P d w).2.trace
        = before ++ [Event.noInterrupts] ++ reads
          ++ [Event.interrupts, Event.millis (fetchData P d w).1.m_lastRead] ∧
      (fetchData P d w).1.m_lastRead
        = (due P d w).2.clock (due P d w).2.clockIdx % 2 ^ P.ulongBits := by
  rw [fetchData_of_due P d w hdue]
  obtain ⟨reads, hr, ht, hl, -⟩ := transaction_trace P d (due P d w).2
  refine ⟨(due P d w).2.trace ++ settleEvents d ++ (requestEvents d).dropLast, reads, hr,
    ?_, hl⟩
  rw [ht]
  simp [requestEvents]

/-- Witness of C9 on the path of a timeout in the start of transmission: the
line stays high, the first wait returns 0, and m_lastRead becomes the
clock value 7000. -/
theorem fetchData_records_time_witness :
    (due uno (new 2) (worldOf [] [7000])).1 = true ∧
    (waitForState uno (new 2) LOW (worldOf [] [7000])).1 = 0 ∧
    (fetchData uno (new 2) (worldOf [] [7000])).1.m_lastRead = 7000 := by
  obtain ⟨_, _, _, _, h⟩ := fetchData_records_time uno (new 2) (worldOf [] [7000]) (by decide)
  refine ⟨by decide, by decide!, ?_⟩
  rw [h]
  decide

/-! ## Signed decoding (claim C10) -/

/-- C10 (amended).  When fetchData performs a transaction and leaves a
frame with a valid checksum: on a target whose int is 16 bits wide both
combinations (b0<<8)+b1 and (b2<<8)+b3 are taken as signed 16-bit
quantities before the division by 10, so a high byte of at least 0x80 gives
(256*b + b' - 65536)/10, and in particular b2 >= 0x80 gives the negative
temperature (256*b2 + b3 - 65536)/10; on a target whose int is wider than 16
bits both decode to the unsigned values (256*b0 + b1)/10 and
(256*b2 + b3)/10, for every frame. -/
theorem fetchData_signed16 (P : Target) (d : Reader) (w : World)
    (b0 b1 b2 b3 b4 : Nat) (hint : 16 ≤ P.intBits)
    (hdue : (due P d w).1 = true)
    (hdata : (fetchData P d w).1.m_data = [b0, b1, b2, b3, b4])
    (h0 : b0 < 256) (h1 : b1 < 256) (h2 : b2 < 256) (h3 : b3 < 256)
    (hck : b4 = (b0 + b1 + b2 + b3) % 256) :
    (P.intBits = 16 →
      (fetchData P d w).1.m_relativeHumidity
        = (if b0 < 0x80 then 256 * (b0 : ℚ) + b1 else 256 * (b0 : ℚ) + b1 - 65536) / 10 ∧
      (fetchData P d w).1.m_temperature
        = (if b2 < 0x80 then 256 * (b2 : ℚ) + b3 else 256 * (b2 : ℚ) + b3 - 65536) / 10 ∧
      (0x80 ≤ b2 →
        (fetchData P d w).1.m_temperature = (256 * (b2 : ℚ) + b3 - 65536) / 10 ∧
        (fetchData P d w).1.m_temperature < 0)) ∧
    (17 ≤ P.intBits →
      (fetchData P d w).1.m_relativeHumidity = (256 * (b0 : ℚ) + b1) / 10 ∧
      (fetchData P d w).1.m_temperature = (256 * (b2 : ℚ) + b3) / 10 ∧
      0 ≤ (fetchData P d w).1.m_temperature) := by
  rw [fetchData_of_due P d w hdue] at hdata ⊢
  have hc := transaction_cached P d (due P d w).2
  rw [hdata] at hc
  simp only [decode, getByte, List.getD_cons_zero, List.getD_cons_succ, hck, if_true,
    Prod.mk.injEq] at hc
  constructor
  · intro h16
    have hh := combine_int16 P b0 b1 h16 h0 h1
    have ht := combine_int16 P b2 b3 h16 h2 h3
    have hrh : (transaction P d (due P d w).2).1.m_relativeHumidity
        = (if b0 < 0x80 then 256 * (b0 : ℚ) + b1 else 256 * (b0 : ℚ) + b1 - 65536) / 10 := by
      rw [hc.1, hh]
      split_ifs <;> push_cast <;> ring
    have htm : (transaction P d (due P d w).2).1.m_temperature
        = (if b2 < 0x80 then 256 * (b2 : ℚ) + b3 else 256 * (b2 : ℚ) + b3 - 65536) / 10 := by
      rw [hc.2, ht]
      split_ifs <;> push_cast <;> ring
    refine ⟨hrh, htm, fun hneg => ?_⟩
    have hv : (transaction P d (due P d w).2).1.m_temperature
        = (256 * (b2 : ℚ) + b3 - 65536) / 10 := by
      rw [htm, if_neg (by omega)]
    refine ⟨hv, ?_⟩
    rw [hv]
    have h2q : (b2 : ℚ) ≤ 255 := by exact_mod_cast Nat.le_of_lt_succ h2
    have h3q : (b3 : ℚ) ≤ 255 := by exact_mod_cast Nat.le_of_lt_succ h3
    have : 256 * (b2 : ℚ) + b3 - 65536 < 0 := by linarith
    exact div_neg_of_neg_of_pos this (by norm_num)
  · intro h17
    have hh := combine_unsigned P b0 b1 hint h0 h1 (Or.inl h17)
    have ht := combine_unsigned P b2 b3 hint h2 h3 (Or.inl h17)
    have hrh : (transaction P d (due P d w).2).1.m_relativeHumidity
        = (256 * (b0 : ℚ) + b1) / 10 := by
      rw [hc.1, hh]; push_cast; ring
    have htm : (transaction P d (due P d w).2).1.m_temperature
        = (256 * (b2 : ℚ) + b3) / 10 := by
      rw [hc.2, ht]; push_cast; ring
    refine ⟨hrh, htm, ?_⟩
    rw [htm]
    positivity

/-- Witness of C10: on an Arduino Uno the frame [0x02,0x58,0xFF,0x9C,0xF5]
gives the humidity 60.0 and the temperature -10.0. -/
theorem fetchData_signed16_witness :
    16 ≤ uno.intBits ∧ uno.intBits = 16 ∧
    (due uno (new 2) (worldOf (frameLevels [0x02, 0x58, 0xFF, 0x9C, 0xF5]) [5000])).1 = true ∧
    (fetchData uno (new 2)
      (worldOf (frameLevels [0x02, 0x58, 0xFF, 0x9C, 0xF5]) [5000])).1.m_data
        = [0x02, 0x58, 0xFF, 0x9C, 0xF5] ∧
    (fetchData uno (new 2)
      (worldOf (frameLevels [0x02, 0x58, 0xFF, 0x9C, 0xF5]) [5000])).1.m_relativeHumidity
        = 60 ∧
    (fetchData uno (new 2)
      (worldOf (frameLevels [0x02, 0x58, 0xFF, 0x9C, 0xF5]) [5000])).1.m_temperature
        = -10 := by
  have h := (fetchData_signed16 uno (new 2)
    (worldOf (frameLevels [0x02, 0x58, 0xFF, 0x9C, 0xF5]) [5000])
    0x02 0x58 0xFF 0x9C 0xF5 (by decide) (by decide) (by decide!)
    (by decide) (by decide) (by decide) (by decide) (by decide)).1 rfl
  refine ⟨by decide, rfl, by decide, by decide!, ?_, ?_⟩
  · rw [h.1]; norm_num
  · rw [(h.2.2 (by decide)).1]; norm_num

/-- Counterexample to C10 as stated: on a 32-bit ARM board the same frame
gives the unsigned value 6543.6, not (256*0xFF + 0x9C - 65536)/10 = -10.0. -/
theorem fetchData_signed16_counterexample :
    (due arm32 (new 2) (worldOf (frameLevels [0x02, 0x58, 0xFF, 0x9C, 0xF5]) [5000])).1 = true ∧
    (fetchData arm32 (new 2)
      (worldOf (frameLevels [0x02, 0x58, 0xFF, 0x9C, 0xF5]) [5000])).1.m_data
        = [0x02, 0x58, 0xFF, 0x9C, 0xF5] ∧
    0xF5 = (0x02 + 0x58 + 0xFF + 0x9C) % 256 ∧ 0x80 ≤ 0xFF ∧
    (fetchData arm32 (new 2)
      (worldOf (frameLevels [0x02, 0x58, 0xFF, 0x9C, 0xF5]) [5000])).1.m_temperature
        = 65436 / 10 ∧
    (fetchData arm32 (new 2)
      (worldOf (frameLevels [0x02, 0x58, 0xFF, 0x9C, 0xF5]) [5000])).1.m_temperature
        ≠ (256 * ((0xFF : Nat) : ℚ) + ((0x9C : Nat) : ℚ) - 65536) / 10 := by
  refine ⟨by decide, by decide!, by decide, by decide, by decide!, by decide!⟩

/-! ## Decoding one bit (claims C11 and C12) -/

/-- C11.  Take an iteration of the sampling loop whose two waits both
succeed: B, the value of lowCounter returned by waitForState(HIGH), and A,
the value of highCounter returned by waitForState(LOW) afterwards, are both
positive.  The byte m_data[bitN/8] is shifted left by one and its new low
bit, the bit shifted into the frame, is 1 if and only if A > B, and 0 if and
only if A <= B, which includes A = B. -/
theorem bit_one_iff_high_longer (P : Target) (d : Reader) (data : List Nat) (w : World)
    (bitN : Nat) (hk : bitN / 8 < data.length)
    (hlow : 0 < (waitForState P d HIGH w).1)
    (hhigh : 0 < (waitForState P d LOW (waitForState P d HIGH w).2).1) :
    (getByte (sampleBit P d (data, w) bitN).1 (bitN / 8) % 2 = 1 ↔
      (waitForState P d LOW (waitForState P d HIGH w).2).1 > (waitForState P d HIGH w).1) ∧
    (getByte (sampleBit P d (data, w) bitN).1 (bitN / 8) % 2 = 0 ↔
      (waitForState P d LOW (waitForState P d HIGH w).2).1 ≤ (waitForState P d HIGH w).1) ∧
    getByte (sampleBit P d (data, w) bitN).1 (bitN / 8) / 2
      = getByte data (bitN / 8) % 128 := by
  rw [sampleBit_success P d data w bitN hk hlow hhigh]
  split_ifs with h
  · refine ⟨⟨fun _ => h, fun _ => by omega⟩, ⟨fun h0 => by omega, fun hle => by omega⟩,
      by omega⟩
  · refine ⟨⟨fun h1 => by omega, fun hgt => absurd hgt h⟩,
      ⟨fun _ => by omega, fun _ => by omega⟩, by omega⟩

/-- Witness of C11 at the boundary: a low phase and a high phase of one read
each give A = B = 1 and the bit 0. -/
theorem bit_one_iff_high_longer_witness :
    0 / 8 < warmReader.m_data.length ∧
    (waitForState uno warmReader HIGH tieWorld).1 = 1 ∧
    (waitForState uno warmReader LOW (waitForState uno warmReader HIGH tieWorld).2).1 = 1 ∧
    getByte (sampleBit uno warmReader (warmReader.m_data, tieWorld) 0).1 (0 / 8) % 2 = 0 :=
  ⟨by decide, by decide!, by decide!,
    (bit_one_iff_high_longer uno warmReader warmReader.m_data tieWorld 0 (by decide)
      (by decide!) (by decide!)).2.1.mpr (by decide!)⟩

/-- C12 (amended).  Take an iteration of the sampling loop whose two waits
both succeed, with A the count measured while waiting for the line to go
high and B the count measured afterwards while waiting for it to go low.
The bit stored is 0 if B <= A and 1 if B > A: the byte becomes twice its
old value modulo 256, plus 1 in the second case. -/
theorem bit_zero_if_high_not_longer (P : Target) (d : Reader) (data : List Nat) (w : World)
    (bitN : Nat) (hk : bitN / 8 < data.length)
    (hA : 0 < (waitForState P d HIGH w).1)
    (hB : 0 < (waitForState P d LOW (waitForState P d HIGH w).2).1) :
    ((waitForState P d LOW (waitForState P d HIGH w).2).1 ≤ (waitForState P d HIGH w).1 →
      getByte (sampleBit P d (data, w) bitN).1 (bitN / 8)
        = 2 * getByte data (bitN / 8) % 256) ∧
    ((waitForState P d HIGH w).1 < (waitForState P d LOW (waitForState P d HIGH w).2).1 →
      getByte (sampleBit P d (data, w) bitN).1 (bitN / 8)
        = 2 * getByte data (bitN / 8) % 256 + 1) := by
  rw [sampleBit_success P d data w bitN hk hA hB]
  constructor
  · intro h
    rw [if_neg (by omega)]
    rfl
  · intro h
    rw [if_pos h]

/-- Witness of C12: A = 2 and B = 1 store a 0; the byte 0x01 becomes 0x02. -/
theorem bit_zero_if_high_not_longer_witness :
    0 / 8 < warmReader.m_data.length ∧
    (waitForState uno warmReader HIGH zeroBitWorld).1 = 2 ∧
    (waitForState uno warmReader LOW (waitForState uno warmReader HIGH zeroBitWorld).2).1 = 1 ∧
    getByte warmReader.m_data (0 / 8) = 1 ∧
    getByte (sampleBit uno warmReader (warmReader.m_data, zeroBitWorld) 0).1 (0 / 8) = 2 := by
  have h := (bit_zero_if_high_not_longer uno warmReader warmReader.m_data zeroBitWorld 0
    (by decide) (by decide!) (by decide!)).1 (by decide!)
  refine ⟨by decide, by decide!, by decide!, by decide, ?_⟩
  rw [h]
  decide

/-- Counterexample to C12 as stated: waiting for the line to go high counts
A = 1, waiting for it to go low counts B = 2, so A <= B, and the bit stored
is 1 (the byte 0x01 becomes 0x03), not 0. -/
theorem bit_zero_if_high_not_longer_counterexample :
    (waitForState uno warmReader HIGH oneBitWorld).1 = 1 ∧
    (waitForState uno warmReader LOW (waitForState uno warmReader HIGH oneBitWorld).2).1 = 2 ∧
    (waitForState uno warmReader HIGH oneBitWorld).1
      ≤ (waitForState uno warmReader LOW (waitForState uno warmReader HIGH oneBitWorld).2).1 ∧
    getByte warmReader.m_data (0 / 8) = 1 ∧
    getByte (sampleBit uno warmReader (warmReader.m_data, oneBitWorld) 0).1 (0 / 8) = 3 ∧
    getByte (sampleBit uno warmReader (warmReader.m_data, oneBitWorld) 0).1 (0 / 8) % 2 = 1 := by
  refine ⟨by decide!, by decide!, by decide!, by decide, by decide!, by decide!⟩

/-! ## Packing the frame (claims C13 and C14) -/

/-- C13.  For every prior content of the five bytes of m_data, when
fetchData performs a transaction in which highCounter is positive after the
start of transmission and each of the 40 iterations samples a bit (both of
its waits succeed), the frame afterwards is determined by the 40 bits alone:
byte k is the sum of bit[8k+i] * 2^(7-i) for i from 0 to 7, for k from 0 to
4, in the order humidity high, humidity low, temperature high, temperature
low, checksum. -/
theorem fetchData_packs_bits (P : Target) (d : Reader) (w : World) (bits : List Bool)
    (hlen : d.m_data.length = 5) (hbytes : ∀ x ∈ d.m_data, x < 256)
    (hdue : (due P d w).1 = true)
    (hack : 0 < (waitAck P d (receptionStart P d w)).1)
    (hbits : bitOutcomes P d 40 (waitAck P d (receptionStart P d w)).2 = bits.map some) :
    (fetchData P d w).1.m_data = (List.range 5).map (msbByte bits) := by
  have hb40 : bits.length = 40 := by
    have := bitOutcomes_length P d 40 (waitAck P d (receptionStart P d w)).2
    rw [hbits, List.length_map] at this
    exact this
  rw [fetchData_data P d w hdue, receive_data P d _ hack, hbits]
  have hl := applyOutcomes_length (bits.map some) 0 d.m_data
  rw [hlen] at hl
  rw [list_of_five _ hl]
  apply List.map_congr_left
  intro k hk
  have hk5 : k < 5 := List.mem_range.mp hk
  have htd : List.take 8 (List.drop (8 * k) (bits.map some))
      = (List.take 8 (List.drop (8 * k) bits)).map some := by
    rw [List.map_take, List.map_drop]
  have hlen8 : (List.take 8 (List.drop (8 * k) bits)).length = 8 := by
    rw [List.length_take, List.length_drop, hb40]
    omega
  rw [applyOutcomes_byte d.m_data (bits.map some) k (by omega) hbytes
    (by rw [htd, List.length_map]; exact hlen8)]
  rw [htd, count_none_map_some, reduceOption_map_some, msbValue_take_drop bits k hlen8]
  simp [Nat.mod_one]

/-- Witness of C13: a reader whose frame is all ones receives the 40 bits
of [0x01,0x90,0x01,0x04,0x96] and holds exactly that frame afterwards. -/
theorem fetchData_packs_bits_witness :
    staleReader.m_data = [0xFF, 0xFF, 0xFF, 0xFF, 0xFF] ∧
    (due uno staleReader laterWorld).1 = true ∧
    0 < (waitAck uno staleReader (receptionStart uno staleReader laterWorld)).1 ∧
    bitOutcomes uno staleReader 40
        (waitAck uno staleReader (receptionStart uno staleReader laterWorld)).2
      = (frameBits [0x01, 0x90, 0x01, 0x04, 0x96]).map some ∧
    (fetchData uno staleReader laterWorld).1.m_data = [0x01, 0x90, 0x01, 0x04, 0x96] := by
  have h := fetchData_packs_bits uno staleReader laterWorld
    (frameBits [0x01, 0x90, 0x01, 0x04, 0x96]) (by decide) (by decide) (by decide!)
    (by decide!) (by decide!)
  refine ⟨rfl, by decide!, by decide!, by decide!, ?_⟩
  rw [h]
  decide

/-- C14 (amended).  A wait returns 0 when it times out (the pin differs
from the awaited level at TIMEOUT successive reads) and also when the pin is
at the awaited level at its first read.  An iteration of the sampling loop
shifts no bit in exactly when one of its two waits returns 0: it then leaves
the frame as it is, and the loop goes on with the next bit index, so the
frame after the loop is the frame with the outcomes of the 40 iterations
applied in turn, each at its own index.  Hence a byte k with t such skipped
positions among its eight is shifted 8 - t times: it ends as its old t
low-order bits, moved to the t high-order positions, followed by the 8 - t
bits received. -/
theorem sampling_skips_timeouts (P : Target) (d : Reader) (data : List Nat) (w : World)
    (k : Nat) (hlen : data.length = 5) (hbytes : ∀ x ∈ data, x < 256) (hk : k < 5) :
    (∀ (state : Bool) (w1 : World), 1 ≤ TIMEOUT P →
      (∀ i, i < TIMEOUT P → w1.pin (w1.pinIdx + i) ≠ state) →
      (waitForState P d state w1).1 = 0) ∧
    (∀ (state : Bool) (w1 : World), w1.pin w1.pinIdx = state →
      (waitForState P d state w1).1 = 0) ∧
    (∀ w1 : World, (bitOutcome P d w1).1 = none ↔
      ((waitForState P d HIGH w1).1 = 0 ∨
        (waitForState P d LOW (waitForState P d HIGH w1).2).1 = 0)) ∧
    (∀ (frame : List Nat) (bitN : Nat) (w1 : World),
      ((waitForState P d HIGH w1).1 = 0 ∨
        (waitForState P d LOW (waitForState P d HIGH w1).2).1 = 0) →
      (sampleBit P d (frame, w1) bitN).1 = frame) ∧
    (sampleBits P d data w).1 = applyOutcomes data 0 (bitOutcomes P d 40 w) ∧
    getByte (sampleBits P d data w).1 k
      = getByte data k % 2 ^ (List.take 8 (List.drop (8 * k) (bitOutcomes P d 40 w))).count none
          * 2 ^ (8 - (List.take 8 (List.drop (8 * k) (bitOutcomes P d 40 w))).count none)
        + msbValue (List.take 8 (List.drop (8 * k) (bitOutcomes P d 40 w))).reduceOption := by
  refine ⟨fun state w1 hT hd =>
    (waitLoop_timeout P d.m_port state (TIMEOUT P + 1) 0 w1 (by omega) (by omega) hd).1,
    fun state w1 h => waitForState_immediate P d state w1 h,
    fun w1 => bitOutcome_none_iff P d w1, ?_, sampleBits_eq P d data w, ?_⟩
  · intro frame bitN w1 h
    rw [sampleBit_eq, (bitOutcome_none_iff P d w1).mpr h]
    rfl
  · rw [sampleBits_eq]
    apply applyOutcomes_byte data _ k (by omega) hbytes
    rw [List.length_take, List.length_drop, bitOutcomes_length]
    omega

/-- Witness of C14: the first data bit times out and the other 39 are
received; byte 0, 0x01 before, has one skipped position and ends as 0x81:
its old low bit on top of the seven bits 0000001. -/
theorem sampling_skips_timeouts_witness :
    warmReader.m_data = [0x01, 0x90, 0x01, 0x04, 0x96] ∧
    (waitForState uno warmReader HIGH
      (waitAck uno warmReader (receptionStart uno warmReader lostBitWorld)).2).1 = 0 ∧
    (List.take 8 (List.drop (8 * 0) (bitOutcomes uno warmReader 40
      (waitAck uno warmReader (receptionStart uno warmReader lostBitWorld)).2))).count none
        = 1 ∧
    getByte (sampleBits uno warmReader warmReader.m_data
      (waitAck uno warmReader (receptionStart uno warmReader lostBitWorld)).2).1 0 = 0x81 := by
  have h := (sampling_skips_timeouts uno warmReader warmReader.m_data
    (waitAck uno warmReader (receptionStart uno warmReader lostBitWorld)).2 0
    (by decide) (by decide) (by decide)).2.2.2.2.2
  refine ⟨rfl, by decide!, by decide!, ?_⟩
  rw [h]
  decide!

/-- Counterexample to C14 as stated: on an Arduino Uno the line goes idle
(stays high) after the first data bit.  The whole call makes 50 pin reads,
fewer than TIMEOUT = 96, and no wait of the eight iterations of byte 1 times
out: the byte has t = 0 timed-out positions.  Yet each of those iterations
finds the line already high, its wait returns 0 and no bit is shifted in:
byte 1 is shifted 0 times, not 8 - 0 = 8, and still holds 0x90. -/
theorem sampling_skips_timeouts_counterexample :
    TIMEOUT uno = 96 ∧
    (fetchData uno warmReader idleWorld).2.pinIdx = 50 ∧
    (∀ i, i < 8 → bitTimesOut uno warmReader (bitWorld uno warmReader (8 * 1 + i)
      (waitAck uno warmReader (receptionStart uno warmReader idleWorld)).2) = false) ∧
    (List.take 8 (List.drop (8 * 1) (bitOutcomes uno warmReader 40
      (waitAck uno warmReader (receptionStart uno warmReader idleWorld)).2))).reduceOption.length
        = 0 ∧
    getByte warmReader.m_data 1 = 0x90 ∧
    getByte (sampleBits uno warmReader warmReader.m_data
      (waitAck uno warmReader (receptionStart uno warmReader idleWorld)).2).1 1 = 0x90 ∧
    (fetchData uno warmReader idleWorld).1.m_data = [0x03, 0x90, 0x01, 0x04, 0x96] := by
  refine ⟨by decide, by decide!, by decide!, by decide!, by decide, by decide!, by decide!⟩

/-! ## Interrupts (claim C15) -/

/-- C15.  When fetchData performs a transaction, the events it adds to the
trace are: some events that are not pin reads, noInterrupts, pin reads only,
interrupts, and events that are not pin reads; noInterrupts occurs exactly
once among them and so does interrupts.  So every pin read of the
transaction lies between the suspension and the resumption, for every pin
and clock behaviour, hence on every path.  When fetchData performs no
transaction, the events it adds contain neither noInterrupts nor interrupts
nor a pin read. -/
theorem interrupts_scoped (P : Target) (d : Reader) (w : World) :
    ((due P d w).1 = true →
      ∃ before reads after : List Event,
        (fetchData P d w).2.trace
          = w.trace ++ (before ++ [Event.noInterrupts] ++ reads ++ [Event.interrupts] ++ after) ∧
        (before ++ [Event.noInterrupts] ++ reads ++ [Event.interrupts] ++ after).count
          Event.noInterrupts = 1 ∧
        (before ++ [Event.noInterrupts] ++ reads ++ [Event.interrupts] ++ after).count
          Event.interrupts = 1 ∧
        (∀ e ∈ reads, isRead e = true) ∧
        (∀ e ∈ before ++ after, isRead e = false)) ∧
    ((due P d w).1 = false →
      ∃ evs : List Event, (fetchData P d w).2.trace = w.trace ++ evs ∧
        evs.count Event.noInterrupts = 0 ∧ evs.count Event.interrupts = 0 ∧
        (∀ e ∈ evs, isRead e = false)) := by
  constructor
  · intro hdue
    rw [fetchData_of_due P d w hdue]
    obtain ⟨reads, hr, ht, -, -⟩ := transaction_trace P d (due P d w).2
    obtain ⟨c1, c2⟩ := count_reads reads hr
    refine ⟨dueEvents P d w ++ settleEvents d ++ (requestEvents d).dropLast, reads,
      [Event.millis (transaction P d (due P d w).2).1.m_lastRead], ?_, ?_, ?_, hr, ?_⟩
    · rw [ht, due_trace]
      simp [requestEvents]
    · simp only [List.count_append, c1]
      cases hf : d.m_firstTime <;> simp [dueEvents, settleEvents, requestEvents, hf]
    · simp only [List.count_append, c2]
      cases hf : d.m_firstTime <;> simp [dueEvents, settleEvents, requestEvents, hf]
    · intro e he
      cases hf : d.m_firstTime <;>
        simp [dueEvents, settleEvents, requestEvents, hf] at he <;>
        casesm* _ ∨ _ <;> subst_vars <;> rfl
  · intro hdue
    rw [fetchData_of_not_due P d w hdue]
    refine ⟨dueEvents P d w, due_trace P d w, ?_⟩
    cases hf : d.m_firstTime <;> simp [dueEvents, hf, isRead]

/-- Witness of C15: a first call that receives a frame, and a call within
the polling interval. -/
theorem interrupts_scoped_witness :
    (due uno (new 2) goodWorld).1 = true ∧
    (due uno warmReader (worldOf [] [1000])).1 = false ∧
    (∃ before reads after : List Event,
      (fetchData uno (new 2) goodWorld).2.trace
        = goodWorld.trace
          ++ (before ++ [Event.noInterrupts] ++ reads ++ [Event.interrupts] ++ after) ∧
      (before ++ [Event.noInterrupts] ++ reads ++ [Event.interrupts] ++ after).count
        Event.noInterrupts = 1 ∧
      (before ++ [Event.noInterrupts] ++ reads ++ [Event.interrupts] ++ after).count
        Event.interrupts = 1 ∧
      (∀ e ∈ reads, isRead e = true) ∧
      (∀ e ∈ before ++ after, isRead e = false)) ∧
    (∃ evs : List Event,
      (fetchData uno warmReader (worldOf [] [1000])).2.trace
        = (worldOf [] [1000]).trace ++ evs ∧
      evs.count Event.noInterrupts = 0 ∧ evs.count Event.interrupts = 0 ∧
      (∀ e ∈ evs, isRead e = false)) :=
  ⟨by decide, by decide,
    (interrupts_scoped uno (new 2) goodWorld).1 (by decide),
    (interrupts_scoped uno warmReader (worldOf [] [1000])).2 (by decide)⟩

/-! ## The cache invariant (claim C16) -/

/-- C16.  The cached pair (relative humidity, temperature) is the decode of
m_data: this holds after construction, is preserved by every call of either
accessor in every world, and so holds in every reachable state.  In
particular a transaction that leaves m_data unchanged leaves both cached
values unchanged.  Here decode of [b0,b1,b2,b3,b4] is
(int((b0<<8)+b1)/10, int((b2<<8)+b3)/10) when b4 = (b0+b1+b2+b3) mod 256 and
(0, 0) otherwise. -/
theorem cache_invariant (P : Target) :
    (∀ port : Int, Coherent P (new port)) ∧
    (∀ (a : Accessor) (d : Reader) (w : World),
      Coherent P d → Coherent P (call P a d w).2.1) ∧
    (∀ d : Reader, Reachable P d → Coherent P d) ∧
    (∀ (d : Reader) (w : World), Coherent P d → (due P d w).1 = true →
      (fetchData P d w).1.m_data = d.m_data →
      (fetchData P d w).1.m_relativeHumidity = d.m_relativeHumidity ∧
      (fetchData P d w).1.m_temperature = d.m_temperature) ∧
    (∀ b0 b1 b2 b3 b4 : Nat, decode P [b0, b1, b2, b3, b4]
      = if b4 = (b0 + b1 + b2 + b3) % 256 then
          ((combine P b0 b1 : ℚ) / 10, (combine P b2 b3 : ℚ) / 10)
        else (0, 0)) := by
  refine ⟨fun port => ?_, fun a d w h => call_coherent P a d w h,
    fun d h => reachable_cached P d h, fun d w h hdue hsame => ?_, fun b0 b1 b2 b3 b4 => rfl⟩
  · unfold Coherent
    rw [decode_new]
    rfl
  · have hc : Coherent P (fetchData P d w).1 := by
      have := call_coherent P Accessor.temperature d w h
      rwa [call_reader] at this
    unfold Coherent at h hc
    rw [hsame, ← h] at hc
    exact Prod.mk.inj hc

/-- Witness of C16: the invariant holds for a fresh reader and after its
first call, which caches 40.0 and 26.0 for the frame
[0x01,0x90,0x01,0x04,0x96]. -/
theorem cache_invariant_witness :
    Coherent uno (new 2) ∧
    Coherent uno (call uno Accessor.temperature (new 2) goodWorld).2.1 ∧
    (call uno Accessor.temperature (new 2) goodWorld).2.1.m_data
      = [0x01, 0x90, 0x01, 0x04, 0x96] ∧
    (call uno Accessor.temperature (new 2) goodWorld).2.1.m_relativeHumidity = 40 ∧
    (call uno Accessor.temperature (new 2) goodWorld).2.1.m_temperature = 26 :=
  ⟨(cache_invariant uno).1 2,
    (cache_invariant uno).2.1 Accessor.temperature (new 2) goodWorld ((cache_invariant uno).1 2),
    by decide!, by decide!, by decide!⟩

/-! ## The wait (claim C17) -/

/-- C17.  For every pin behaviour and every threshold TIMEOUT of at least 1:
if the pin first matches the awaited state after k differing reads, with
k below TIMEOUT, waitForState returns k after k + 1 reads; if the first
TIMEOUT reads all differ, it returns 0 after TIMEOUT reads.  In every case
the result is below TIMEOUT, at least one and at most TIMEOUT reads are
made, and the loop needs no more than TIMEOUT iterations.  So the result 0
arises both on a timeout and when the pin is at the awaited state at the
first read. -/
theorem waitForState_count (P : Target) (d : Reader) (state : Bool) (w : World)
    (hT : 1 ≤ TIMEOUT P) :
    (∀ k, k < TIMEOUT P → (∀ i, i < k → w.pin (w.pinIdx + i) ≠ state) →
      w.pin (w.pinIdx + k) = state →
      (waitForState P d state w).1 = k ∧
      (waitForState P d state w).2.pinIdx = w.pinIdx + k + 1) ∧
    ((∀ i, i < TIMEOUT P → w.pin (w.pinIdx + i) ≠ state) →
      (waitForState P d state w).1 = 0 ∧
      (waitForState P d state w).2.pinIdx = w.pinIdx + TIMEOUT P) ∧
    (waitForState P d state w).1 < TIMEOUT P ∧
    w.pinIdx < (waitForState P d state w).2.pinIdx ∧
    (waitForState P d state w).2.pinIdx ≤ w.pinIdx + TIMEOUT P ∧
    (∀ fuel, TIMEOUT P ≤ fuel →
      waitLoop P d.m_port state fuel 0 w = waitForState P d state w) := by
  have hmatch : ∀ k, k < TIMEOUT P → (∀ i, i < k → w.pin (w.pinIdx + i) ≠ state) →
      w.pin (w.pinIdx + k) = state →
      (waitForState P d state w).1 = k ∧
      (waitForState P d state w).2.pinIdx = w.pinIdx + k + 1 := by
    intro k hk hd hm
    have h := waitLoop_match P d.m_port state k (TIMEOUT P + 1) 0 w (by omega) (by omega) hd hm
    unfold waitForState
    rw [h.1, h.2]
    exact ⟨by omega, rfl⟩
  have htime : (∀ i, i < TIMEOUT P → w.pin (w.pinIdx + i) ≠ state) →
      (waitForState P d state w).1 = 0 ∧
      (waitForState P d state w).2.pinIdx = w.pinIdx + TIMEOUT P := by
    intro hd
    exact waitLoop_timeout P d.m_port state (TIMEOUT P + 1) 0 w (by omega) (by omega) hd
  refine ⟨hmatch, htime, ?_, ?_, ?_, ?_⟩
  · by_cases h : ∃ k, k < TIMEOUT P ∧ w.pin (w.pinIdx + k) = state
    · have hk := Nat.find_spec h
      have hmin := fun i (hi : i < Nat.find h) => Nat.find_min h hi
      have hr := hmatch (Nat.find h) hk.1
        (fun i hi hq => hmin i hi ⟨by omega, hq⟩) hk.2
      rw [hr.1]; exact hk.1
    · have hr := htime (fun i hi hq => h ⟨i, hi, hq⟩)
      rw [hr.1]; exact hT
  · by_cases h : ∃ k, k < TIMEOUT P ∧ w.pin (w.pinIdx + k) = state
    · have hk := Nat.find_spec h
      have hmin := fun i (hi : i < Nat.find h) => Nat.find_min h hi
      have hr := hmatch (Nat.find h) hk.1
        (fun i hi hq => hmin i hi ⟨by omega, hq⟩) hk.2
      rw [hr.2]; omega
    · have hr := htime (fun i hi hq => h ⟨i, hi, hq⟩)
      rw [hr.2]; omega
  · by_cases h : ∃ k, k < TIMEOUT P ∧ w.pin (w.pinIdx + k) = state
    · have hk := Nat.find_spec h
      have hmin := fun i (hi : i < Nat.find h) => Nat.find_min h hi
      have hr := hmatch (Nat.find h) hk.1
        (fun i hi hq => hmin i hi ⟨by omega, hq⟩) hk.2
      rw [hr.2]; omega
    · have hr := htime (fun i hi hq => h ⟨i, hi, hq⟩)
      rw [hr.2]
  · intro fuel hf
    exact waitLoop_fuel_tight P d.m_port state fuel (TIMEOUT P + 1) 0 w (by omega) (by omega)
      (by omega) (by omega)

/-- Witness of C17 at 1 MHz (TIMEOUT = 6): the result is 0 when the pin is
already low at the first read (one read) and 0 when it stays high (six
reads); three high reads and then a low one give 3. -/
theorem waitForState_count_witness :
    1 ≤ TIMEOUT attiny ∧
    (waitForState attiny (new 2) LOW (worldOf [LOW] [])).1 = 0 ∧
    (waitForState attiny (new 2) LOW (worldOf [LOW] [])).2.pinIdx = 1 ∧
    (waitForState attiny (new 2) LOW (worldOf [] [])).1 = 0 ∧
    (waitForState attiny (new 2) LOW (worldOf [] [])).2.pinIdx = TIMEOUT attiny ∧
    (waitForState attiny (new 2) LOW (worldOf [HIGH, HIGH, HIGH, LOW] [])).1 = 3 := by
  have h0 := (waitForState_count attiny (new 2) LOW (worldOf [LOW] []) (by decide)).1 0
    (by decide) (by intro i hi; omega) (by decide)
  have h1 := (waitForState_count attiny (new 2) LOW (worldOf [] []) (by decide)).2.1
    (by decide)
  have h3 := (waitForState_count attiny (new 2) LOW (worldOf [HIGH, HIGH, HIGH, LOW] [])
    (by decide)).1 3 (by decide) (by decide) (by decide)
  exact ⟨by decide, h0.1, h0.2, h1.1, by simpa using h1.2, h3.1⟩

end DHT22
